import Mathlib

/-
Verification of the rule-based intent normalization pipeline of the
clean-intent repository (backend/src/modules: intentParser, conflictDetector,
irlGenerator, promptCompiler, normalizer).

The JavaScript string functions are embedded over `List Char`; JS regular
expressions used by the source are embedded as an explicit abstract syntax
(`RE`) together with a backtracking matcher (`reMatch`) returning the list of
candidate matches in JS priority order (first element = the match JS picks).
Case folding models `String.prototype.toLowerCase` / the `i` flag on the ASCII
letters, which covers every pattern and conflict term of the source (all are
ASCII).  JS string length is measured in characters (all source-relevant
strings are ASCII, where this agrees with UTF-16 code units).
-/

set_option maxRecDepth 100000

namespace CleanIntent

/-! ### Characters -/

/-- ASCII lower-casing, modelling `toLowerCase` and the `i` regex flag on the
characters the source patterns use. -/
def jsLower (c : Char) : Char :=
  match c with
  | 'A' => 'a' | 'B' => 'b' | 'C' => 'c' | 'D' => 'd' | 'E' => 'e'
  | 'F' => 'f' | 'G' => 'g' | 'H' => 'h' | 'I' => 'i' | 'J' => 'j'
  | 'K' => 'k' | 'L' => 'l' | 'M' => 'm' | 'N' => 'n' | 'O' => 'o'
  | 'P' => 'p' | 'Q' => 'q' | 'R' => 'r' | 'S' => 's' | 'T' => 't'
  | 'U' => 'u' | 'V' => 'v' | 'W' => 'w' | 'X' => 'x' | 'Y' => 'y'
  | 'Z' => 'z'
  | c => c

/-- ASCII upper-casing, modelling `toUpperCase` on the first goal character. -/
def jsUpper (c : Char) : Char :=
  match c with
  | 'a' => 'A' | 'b' => 'B' | 'c' => 'C' | 'd' => 'D' | 'e' => 'E'
  | 'f' => 'F' | 'g' => 'G' | 'h' => 'H' | 'i' => 'I' | 'j' => 'J'
  | 'k' => 'K' | 'l' => 'L' | 'm' => 'M' | 'n' => 'N' | 'o' => 'O'
  | 'p' => 'P' | 'q' => 'Q' | 'r' => 'R' | 's' => 'S' | 't' => 'T'
  | 'u' => 'U' | 'v' => 'V' | 'w' => 'W' | 'x' => 'X' | 'y' => 'Y'
  | 'z' => 'Z'
  | c => c

/-- JS whitespace (`\s`, and the set removed by `trim`). -/
def isJsWs (c : Char) : Bool :=
  c.toNat == 32 || c.toNat == 9 || c.toNat == 10 || c.toNat == 11 ||
  c.toNat == 12 || c.toNat == 13 || c.toNat == 160 || c.toNat == 0x1680 ||
  (0x2000 ≤ c.toNat && c.toNat ≤ 0x200a) || c.toNat == 0x2028 ||
  c.toNat == 0x2029 || c.toNat == 0x202f || c.toNat == 0x205f ||
  c.toNat == 0x3000 || c.toNat == 0xfeff

/-- JS word character (`\w`, used by `\b`). -/
def isWordChar (c : Char) : Bool :=
  (97 ≤ c.toNat && c.toNat ≤ 122) || (65 ≤ c.toNat && c.toNat ≤ 90) ||
  (48 ≤ c.toNat && c.toNat ≤ 57) || c.toNat == 95

/-- JS line terminators, the characters `.` does not match. -/
def isLineTerm (c : Char) : Bool :=
  c.toNat == 10 || c.toNat == 13 || c.toNat == 0x2028 || c.toNat == 0x2029

/-- The class matched by `.` (no `s` flag anywhere in the source). -/
def isDotChar (c : Char) : Bool := !isLineTerm c

/-- The class `[,\s]` of the `if possible` pattern. -/
def isWsOrComma (c : Char) : Bool := isJsWs c || c == ','

/-! ### List-of-characters helpers -/

/-- Character at a position (JS `str[p]`). -/
def nthc : List Char → Nat → Option Char
  | [], _ => none
  | c :: _, 0 => some c
  | _ :: t, n + 1 => nthc t n

/-- Slice `[q, r)` of a string (JS `str.slice(q, r)`). -/
def sliceL (s : List Char) (q r : Nat) : List Char := (s.drop q).take (r - q)

/-- JS `String.prototype.trim`. -/
def trimL (s : List Char) : List Char :=
  ((s.dropWhile isJsWs).reverse.dropWhile isJsWs).reverse

/-- Case-sensitive leading-match test used by `containsL`. -/
def leadsWith : List Char → List Char → Bool
  | [], _ => true
  | _ :: _, [] => false
  | c :: cs, d :: ds => c == d && leadsWith cs ds

/-- JS `String.prototype.includes` (substring containment). -/
def containsL (hay needle : List Char) : Bool :=
  leadsWith needle hay ||
    match hay with
    | [] => false
    | _ :: t => containsL t needle

/-- Lower-cased copy of a string (JS `toLowerCase`, ASCII). -/
def lowerL (s : List Char) : List Char := s.map jsLower

/-- Lower-cased copy of a `String`. -/
def lowerS (s : String) : String := String.mk (lowerL s.data)

/-- Length of the maximal leading run of class characters. -/
def runLen (cls : Char → Bool) : List Char → Nat
  | [] => 0
  | c :: t => if cls c then runLen cls t + 1 else 0

/-! ### Regular expressions

The abstract syntax below is a node-for-node transcription language for the
regex literals of the source.  `lit` is a case-insensitive literal (the `i`
flag), `litCS` a case-sensitive one, `plusG`/`plusL` are greedy and lazy `+`
over a single-character class, `opt` is greedy `?`, `alt` ordered alternation,
`wb` is `\b`, `eos` is `$` (no `m` flag anywhere), `group` the capturing
group. -/

inductive RE where
  | lit (cs : List Char)
  | litCS (cs : List Char)
  | plusG (cls : Char → Bool)
  | plusL (cls : Char → Bool)
  | opt (r : RE)
  | alt (r1 r2 : RE)
  | seq (r1 r2 : RE)
  | wb
  | eos
  | group (r : RE)
deriving Inhabited

/-- Case-insensitive literal match at a position, returning the end. -/
def litAt (s : List Char) : List Char → Nat → Option Nat
  | [], p => some p
  | c :: cs, p =>
    match nthc s p with
    | some d => if jsLower d == jsLower c then litAt s cs (p + 1) else none
    | none => none

/-- Case-sensitive literal match at a position. -/
def litAtCS (s : List Char) : List Char → Nat → Option Nat
  | [], p => some p
  | c :: cs, p =>
    match nthc s p with
    | some d => if d == c then litAtCS s cs (p + 1) else none
    | none => none

/-- Whether the position `p` is inside a word (for `\b`). -/
def wordAtPos (s : List Char) (p : Nat) : Bool :=
  match nthc s p with
  | some c => isWordChar c
  | none => false

/-- JS word boundary `\b` at position `p`. -/
def wbAt (s : List Char) (p : Nat) : Bool :=
  (match p with
   | 0 => false
   | q + 1 => wordAtPos s q) != wordAtPos s p

/-- A capture is a pair of positions `(q, r)` delimiting group 1. -/
abbrev Cap := Option (Nat × Nat)

/-- Merge the captures of two sequenced subexpressions (the later group
wins; at most one group is ever on a path in the source patterns). -/
def mergeCap (c1 c2 : Cap) : Cap :=
  match c2 with
  | some x => some x
  | none => c1

/-- Concatenation of the images of `f`, in order. -/
def catMap (f : α → List β) : List α → List β
  | [] => []
  | a :: t => f a ++ catMap f t

/-- All candidate matches of `re` starting at position `p`, as pairs of the
end position and the group-1 capture, in JS backtracking priority order:
the head is the match JS commits to. -/
def reMatch (s : List Char) : RE → Nat → List (Nat × Cap)
  | .lit cs, p =>
    match litAt s cs p with
    | some e => [(e, none)]
    | none => []
  | .litCS cs, p =>
    match litAtCS s cs p with
    | some e => [(e, none)]
    | none => []
  | .plusG cls, p =>
    ((List.range (runLen cls (s.drop p))).map (fun i => (p + 1 + i, (none : Cap)))).reverse
  | .plusL cls, p =>
    (List.range (runLen cls (s.drop p))).map (fun i => (p + 1 + i, (none : Cap)))
  | .opt r, p => reMatch s r p ++ [(p, none)]
  | .alt r1 r2, p => reMatch s r1 p ++ reMatch s r2 p
  | .seq r1 r2, p =>
    catMap (fun a => (reMatch s r2 a.1).map (fun b => (b.1, mergeCap a.2 b.2)))
      (reMatch s r1 p)
  | .wb, p => if wbAt s p then [(p, none)] else []
  | .eos, p => if p == s.length then [(p, none)] else []
  | .group r, p => (reMatch s r p).map (fun b => (b.1, some (p, b.1)))

/-- A committed regex match: start, end, group-1 capture span. -/
structure RMatch where
  start : Nat
  stop : Nat
  cap : Cap
deriving DecidableEq

/-- Leftmost match search from position `i` (fuel-indexed; callers pass
enough fuel for every position up to the end of the string). -/
def scanFrom (s : List Char) (re : RE) : Nat → Nat → Option RMatch
  | 0, _ => none
  | fuel + 1, i =>
    match (reMatch s re i).head? with
    | some (e, cap) => some ⟨i, e, cap⟩
    | none => if i < s.length then scanFrom s re fuel (i + 1) else none

/-- `regexp.exec` semantics: leftmost match at or after `lastIndex`. -/
def execFrom (s : List Char) (re : RE) (li : Nat) : Option RMatch :=
  scanFrom s re (s.length + 1 - li) li

/-- `regexp.test` semantics. -/
def reTest (re : RE) (s : List Char) : Bool := (execFrom s re 0).isSome

/-- The repeated-`exec` loop over a global regex, advancing `lastIndex` to the
end of each match.  Every source pattern used globally consumes at least one
character per match, so the fuel `s.length + 1` is never exhausted. -/
def execLoop (s : List Char) (re : RE) : Nat → Nat → List RMatch
  | 0, _ => []
  | fuel + 1, li =>
    match execFrom s re li with
    | none => []
    | some m => m :: execLoop s re fuel m.stop

/-- All matches of a global regex over `s` (the JS `while (exec)` idiom). -/
def execAll (s : List Char) (re : RE) : List RMatch :=
  execLoop s re (s.length + 1) 0

/-- The text of group 1 of a match (JS `match[1]`, `[]` when absent). -/
def captureStr (s : List Char) (m : RMatch) : List Char :=
  match m.cap with
  | some (q, r) => sliceL s q r
  | none => []

/-- JS `str.replace(re, '')` for a `^`-anchored pattern: the anchor restricts
the search to position 0, so the first (and only possible) match is removed
there. -/
def stripRe (re : RE) (g : List Char) : List Char :=
  match (reMatch g re 0).head? with
  | some (e, _) => g.drop e
  | none => g

/-! ### Regex combinator helpers for transcribing the source patterns -/

/-- Case-insensitive literal (patterns carrying the `i` flag). -/
def reLit (t : String) : RE := .lit t.data

/-- Case-sensitive literal (patterns without the `i` flag). -/
def reLitCS (t : String) : RE := .litCS t.data

/-- Right-nested sequencing of a pattern list. -/
def rseq : List RE → RE
  | [] => .lit []
  | [r] => r
  | r :: rs => .seq r (rseq rs)

/-- Right-nested ordered alternation. -/
def ralt : List RE → RE
  | [] => .lit []
  | [r] => r
  | r :: rs => .alt r (ralt rs)

/-- Optional plural `s?`. -/
def plural (t : String) : RE := rseq [reLit t, .opt (reLit "s")]

/-- The shared tail `(.+?)(?:\.|,|$)` of every constraint pattern. -/
def clauseTail : RE :=
  .seq (.group (.plusL isDotChar)) (ralt [reLit ".", reLit ",", .eos])

/-! ### Data model (types/intentSchema.ts) -/

inductive Severity where
  | warning
  | blocking
deriving DecidableEq, Inhabited

inductive ConflictType where
  | constraint
  | goal
  | output
deriving DecidableEq, Inhabited

structure Conflict where
  type : ConflictType
  description : String
  severity : Severity
  terms : String × String
deriving DecidableEq, Inhabited

inductive ConstraintKind where
  | hard
  | soft
deriving DecidableEq, Inhabited

structure Constraint where
  text : String
  type : ConstraintKind
deriving DecidableEq, Inhabited

inductive LengthCat where
  | short
  | medium
  | long
  | any
deriving DecidableEq, Inhabited

/-- The rendered form of a length category (its JS string value). -/
def LengthCat.str : LengthCat → String
  | .short => "short"
  | .medium => "medium"
  | .long => "long"
  | .any => "any"

/-- Output expectations; the JS field `structure` is called `struct` here. -/
structure OutputExpectation where
  length : Option LengthCat
  format : Option String
  struct : Option (List String)
deriving DecidableEq, Inhabited

structure Constraints where
  hard : List Constraint
  soft : List Constraint
deriving DecidableEq, Inhabited

structure Intent where
  version : String
  primaryGoal : String
  taskType : Option String
  audience : Option String
  domain : Option String
  constraints : Constraints
  outputExpectations : Option OutputExpectation
  conflicts : List Conflict
  requiresClarification : Bool
  rawInput : String
  assumptions : List String
deriving DecidableEq, Inhabited

structure NormalizeResponse where
  intent : Intent
  irl : String
  compiled : String
deriving DecidableEq, Inhabited

def SCHEMA_VERSION : String := "0.1.0"

/-! ### Conflict detector (conflictDetector.ts) -/

structure ConflictRule where
  terms : String × String
  description : String
  severity : Severity
  type : ConflictType
deriving DecidableEq, Inhabited

def CONFLICT_RULES : List ConflictRule :=
  [ ⟨("simple", "detailed"),
      "Request asks for both simple and detailed output", .warning, .constraint⟩,
    ⟨("short", "comprehensive"),
      "Request asks for both short and comprehensive output", .warning, .output⟩,
    ⟨("short", "in-depth"),
      "Request asks for both short and in-depth content", .warning, .output⟩,
    ⟨("brief", "thorough"),
      "Request asks for both brief and thorough output", .warning, .output⟩,
    ⟨("creative", "strict"),
      "Request asks for both creative and strict approach", .warning, .constraint⟩,
    ⟨("creative", "formal"),
      "Creative tone conflicts with formal style requirement", .warning, .constraint⟩,
    ⟨("casual", "professional"),
      "Casual tone conflicts with professional style", .warning, .constraint⟩,
    ⟨("fast", "perfect"),
      "Prioritizing speed may conflict with perfectionism", .warning, .constraint⟩,
    ⟨("minimal", "feature-rich"),
      "Minimal design conflicts with feature-rich requirements", .blocking, .goal⟩,
    ⟨("concise", "exhaustive"),
      "Concise output conflicts with exhaustive coverage", .warning, .output⟩ ]

/-- Whether both terms of a rule occur in the lower-cased input. -/
def ruleFires (lowerText : List Char) (rule : ConflictRule) : Bool :=
  containsL lowerText rule.terms.1.data && containsL lowerText rule.terms.2.data

/-- The conflict record a firing rule pushes. -/
def ruleConflict (rule : ConflictRule) : Conflict :=
  ⟨rule.type, rule.description, rule.severity, rule.terms⟩

def detectConflicts (text : List Char) : List Conflict :=
  (CONFLICT_RULES.filter (ruleFires (lowerL text))).map ruleConflict

/-! ### Pattern library (intentParser.ts) -/

def TASK_TYPE_PATTERNS : List (String × List RE) :=
  [ ("generate",
      [rseq [.wb, .group (ralt [reLit "create", reLit "generate", reLit "build",
        reLit "make", reLit "write", reLit "produce", reLit "design"]), .wb]]),
    ("analyze",
      [rseq [.wb, .group (ralt [reLit "analyze", reLit "examine", reLit "review",
        reLit "evaluate", reLit "assess", reLit "audit"]), .wb]]),
    ("explain",
      [rseq [.wb, .group (ralt [reLit "explain", reLit "describe", reLit "clarify",
        reLit "elaborate", reLit "break down"]), .wb]]),
    ("fix",
      [rseq [.wb, .group (ralt [reLit "fix", reLit "repair", reLit "debug",
        reLit "solve", reLit "resolve", reLit "correct"]), .wb]]),
    ("optimize",
      [rseq [.wb, .group (ralt [reLit "optimize", reLit "improve", reLit "enhance",
        reLit "refactor", reLit "streamline"]), .wb]]),
    ("convert",
      [rseq [.wb, .group (ralt [reLit "convert", reLit "transform", reLit "translate",
        reLit "migrate", reLit "port"]), .wb]]),
    ("summarize",
      [rseq [.wb, .group (ralt [reLit "summarize", reLit "condense", reLit "tldr",
        reLit "brief", reLit "overview"]), .wb]]) ]

def AUDIENCE_PATTERNS : List (RE × String) :=
  [ (rseq [.wb, reLit "for", .plusG isJsWs,
      .group (ralt [plural "beginner", plural "newbie", plural "novice"]), .wb],
     "beginners"),
    (rseq [.wb, reLit "for", .plusG isJsWs,
      .group (ralt [plural "expert", plural "advanced user", plural "professional"]), .wb],
     "experts"),
    (rseq [.wb, reLit "for", .plusG isJsWs,
      .group (ralt [plural "developer", plural "dev", plural "engineer",
        plural "programmer"]), .wb],
     "developers"),
    (rseq [.wb, reLit "for", .plusG isJsWs,
      .group (ralt [plural "manager", plural "executive", reLit "leadership"]), .wb],
     "managers"),
    (rseq [.wb, reLit "for", .plusG isJsWs,
      .group (ralt [plural "designer", reLit "ux", reLit "ui"]), .wb],
     "designers"),
    (rseq [.wb, reLit "for", .plusG isJsWs,
      .group (ralt [plural "student", plural "learner"]), .wb],
     "students"),
    (rseq [.wb, reLit "for", .plusG isJsWs,
      .group (ralt [plural "customer", plural "user", plural "client"]), .wb],
     "end users"),
    (rseq [.wb, reLit "for", .plusG isJsWs,
      .group (ralt [plural "founder", plural "startup", plural "entrepreneur"]), .wb],
     "startup founders"),
    (rseq [.wb, reLit "for", .plusG isJsWs,
      .group (ralt [reLit "children", reLit "kids"]), .wb],
     "children"),
    (rseq [.wb, reLit "technical", .plusG isJsWs, reLit "audience", .wb],
     "technical audience"),
    (rseq [.wb, reLit "non-technical", .wb],
     "non-technical audience") ]

def DOMAIN_PATTERNS : List (RE × String) :=
  [ (rseq [.wb, .group (ralt [reLit "web", reLit "website", reLit "frontend",
      reLit "react", reLit "vue", reLit "angular"]), .wb], "web development"),
    (rseq [.wb, .group (ralt [reLit "mobile", reLit "ios", reLit "android",
      reLit "app"]), .wb], "mobile development"),
    (rseq [.wb, .group (ralt [reLit "api", reLit "backend", reLit "server",
      reLit "database"]), .wb], "backend development"),
    (rseq [.wb, .group (ralt [reLit "ml", reLit "machine learning", reLit "ai",
      reLit "data science"]), .wb], "machine learning"),
    (rseq [.wb, .group (ralt [reLit "devops", reLit "ci/cd", reLit "deployment",
      reLit "infrastructure"]), .wb], "devops"),
    (rseq [.wb, .group (ralt [reLit "marketing", reLit "seo", reLit "growth",
      reLit "analytics"]), .wb], "marketing"),
    (rseq [.wb, .group (ralt [reLit "finance", reLit "banking", reLit "trading",
      reLit "investment"]), .wb], "finance"),
    (rseq [.wb, .group (ralt [reLit "healthcare", reLit "medical",
      reLit "health"]), .wb], "healthcare"),
    (rseq [.wb, .group (ralt [rseq [reLit "e", .opt (reLit "-"), reLit "commerce"],
      reLit "shopping", reLit "retail"]), .wb], "e-commerce"),
    (rseq [.wb, .group (ralt [reLit "education", reLit "learning",
      reLit "teaching"]), .wb], "education") ]

/-- A constraint pattern: the regex and the text built from `match[1]`. -/
structure CPattern where
  re : RE
  extract : List Char → List Char
deriving Inhabited

def HARD_CONSTRAINT_PATTERNS : List CPattern :=
  [ ⟨rseq [.wb, reLit "must", .plusG isJsWs,
      .opt (rseq [reLit "be", .plusG isJsWs]), clauseTail],
     fun m1 => trimL m1⟩,
    ⟨rseq [.wb, reLit "require", .opt (reLit "d"),
      .opt (rseq [.plusG isJsWs, reLit "to"]), .plusG isJsWs, clauseTail],
     fun m1 => trimL m1⟩,
    ⟨rseq [.wb, reLit "has", .plusG isJsWs, reLit "to", .plusG isJsWs, clauseTail],
     fun m1 => trimL m1⟩,
    ⟨rseq [.wb, reLit "need", .opt (reLit "s"), .plusG isJsWs, reLit "to",
      .plusG isJsWs, clauseTail],
     fun m1 => trimL m1⟩,
    ⟨rseq [.wb, reLit "ensure", .plusG isJsWs, clauseTail],
     fun m1 => trimL m1⟩,
    ⟨rseq [.wb, reLit "no", .plusG isJsWs, clauseTail],
     fun m1 => "no ".data ++ trimL m1⟩,
    ⟨rseq [.wb, reLit "without", .plusG isJsWs, clauseTail],
     fun m1 => "without ".data ++ trimL m1⟩ ]

def SOFT_CONSTRAINT_PATTERNS : List CPattern :=
  [ ⟨rseq [.wb, reLit "preferably", .plusG isJsWs, clauseTail],
     fun m1 => trimL m1⟩,
    ⟨rseq [.wb, reLit "ideally", .plusG isJsWs, clauseTail],
     fun m1 => trimL m1⟩,
    ⟨rseq [.wb, reLit "should", .plusG isJsWs,
      .opt (rseq [reLit "be", .plusG isJsWs]), clauseTail],
     fun m1 => trimL m1⟩,
    ⟨rseq [.wb, reLit "would", .plusG isJsWs, reLit "be", .plusG isJsWs,
      reLit "nice", .plusG isJsWs, .opt (rseq [reLit "to", .plusG isJsWs]),
      clauseTail],
     fun m1 => trimL m1⟩,
    ⟨rseq [.wb, reLit "if", .plusG isJsWs, reLit "possible",
      .plusG isWsOrComma, clauseTail],
     fun m1 => trimL m1⟩,
    ⟨rseq [.wb, reLit "optionally", .plusG isJsWs, clauseTail],
     fun m1 => trimL m1⟩ ]

def LENGTH_PATTERNS : List (RE × LengthCat) :=
  [ (rseq [.wb, .group (ralt [reLit "brief", reLit "short", reLit "concise",
      reLit "quick", reLit "simple"]), .wb], .short),
    (rseq [.wb, .group (ralt [reLit "detailed", reLit "comprehensive",
      reLit "thorough", reLit "in-depth", reLit "exhaustive", reLit "long"]), .wb],
     .long),
    (rseq [.wb, .group (ralt [reLit "moderate", reLit "medium",
      reLit "balanced"]), .wb], .medium) ]

def FORMAT_PATTERNS : List (RE × String) :=
  [ (rseq [.wb, .group (ralt [reLitCS "json", reLitCS "JSON"]), .wb], "JSON"),
    (rseq [.wb, .group (ralt [reLit "markdown", reLit "md"]), .wb], "Markdown"),
    (rseq [.wb, .group (ralt [reLitCS "html", reLitCS "HTML"]), .wb], "HTML"),
    (rseq [.wb, .group (ralt [
      rseq [reLit "bullet", .opt (.plusG isJsWs), reLit "point", .opt (reLit "s")],
      plural "bullet", reLit "list"]), .wb], "bullet points"),
    (rseq [.wb, .group (ralt [reLit "table", reLit "tabular"]), .wb], "table"),
    (rseq [.wb, .group (ralt [reLit "code", reLit "snippet"]), .wb], "code") ]

/-- The first structure pattern, `\bwith\s+(sections?|parts?|chapters?)\b`,
carrying only the `i` flag (no `g`). -/
def withStructRE : RE :=
  rseq [.wb, reLit "with", .plusG isJsWs,
    .group (ralt [plural "section", plural "part", plural "chapter"]), .wb]

/-- The second structure pattern, `\binclude\s+(.+?)(?:\.|,|and|$)`, flags `gi`. -/
def includeRE : RE :=
  rseq [.wb, reLit "include", .plusG isJsWs,
    .seq (.group (.plusL isDotChar)) (ralt [reLit ".", reLit ",", reLit "and", .eos])]

/-- The five goal filler patterns, applied by successive anchored
`replace(..., '')` calls in source order. -/
def GOAL_FILLER_PATTERNS : List RE :=
  [ .group (rseq [reLit "i", .plusG isJsWs, reLit "want", .plusG isJsWs,
      .opt (.group (rseq [reLit "you", .plusG isJsWs])), reLit "to", .plusG isJsWs]),
    .group (rseq [reLit "please", .plusG isJsWs]),
    .group (rseq [reLit "can", .plusG isJsWs, reLit "you", .plusG isJsWs]),
    .group (rseq [reLit "help", .plusG isJsWs, reLit "me", .plusG isJsWs]),
    .group (rseq [reLit "i", .plusG isJsWs, reLit "need", .plusG isJsWs,
      .opt (.group (rseq [reLit "you", .plusG isJsWs])), reLit "to", .plusG isJsWs]) ]

/-! ### Field extractors (intentParser.ts) -/

/-- Sentence separators of `text.split(/[.!?]+/)`. -/
def isSentSep (c : Char) : Bool := c == '.' || c == '!' || c == '?'

/-- Splitting on runs of sentence separators (fuel-indexed; each step consumes
at least one character beyond the emitted piece, so `length + 1` suffices). -/
def splitSentAux : Nat → List Char → List (List Char)
  | 0, _ => []
  | fuel + 1, s =>
    let piece := s.takeWhile (fun c => !isSentSep c)
    let rest := s.dropWhile (fun c => !isSentSep c)
    match rest with
    | [] => [piece]
    | _ :: _ => piece :: splitSentAux fuel (rest.dropWhile isSentSep)

/-- JS `text.split(/[.!?]+/)`. -/
def splitSentences (s : List Char) : List (List Char) :=
  splitSentAux (s.length + 1) s

/-- JS `goal.charAt(0).toUpperCase() + goal.slice(1)`. -/
def capitalizeFirst : List Char → List Char
  | [] => []
  | c :: t => jsUpper c :: t

def extractPrimaryGoal (text : List Char) : List Char :=
  let sentences := ((splitSentences text).map trimL).filter (fun x => !x.isEmpty)
  match sentences with
  | g :: _ => capitalizeFirst (GOAL_FILLER_PATTERNS.foldl (fun acc re => stripRe re acc) g)
  | [] => trimL text

def extractTaskType (text : List Char) : Option String :=
  TASK_TYPE_PATTERNS.findSome? (fun pr =>
    if pr.2.any (fun re => reTest re text) then some pr.1 else none)

/-- First-match-wins lookup over an ordered (pattern, label) list. -/
def firstMatchLabel {α : Type} (text : List Char) : List (RE × α) → Option α
  | [] => none
  | (re, a) :: t => if reTest re text then some a else firstMatchLabel text t

def extractAudience (text : List Char) : Option String :=
  firstMatchLabel text AUDIENCE_PATTERNS

def extractDomain (text : List Char) : Option String :=
  firstMatchLabel text DOMAIN_PATTERNS

/-- The inner `while (regex.exec)` loop of `extractConstraints` for one
pattern: each match's extracted text is kept when its length is in bounds and
its lower-casing is not in `seen`. -/
def ecMatches (text : List Char) (extract : List Char → List Char)
    (ty : ConstraintKind) :
    List RMatch → List (List Char) → List Constraint →
    List (List Char) × List Constraint
  | [], seen, acc => (seen, acc)
  | m :: ms, seen, acc =>
    let constraintText := extract (captureStr text m)
    if 3 < constraintText.length && constraintText.length < 100 &&
        !seen.contains (lowerL constraintText) then
      ecMatches text extract ty ms (seen ++ [lowerL constraintText])
        (acc ++ [⟨String.mk constraintText, ty⟩])
    else
      ecMatches text extract ty ms seen acc

/-- The outer pattern loop of `extractConstraints`; `seen` is shared across
the patterns of one call. -/
def ecPatterns (text : List Char) (ty : ConstraintKind) :
    List CPattern → List (List Char) → List Constraint → List Constraint
  | [], _, acc => acc
  | p :: ps, seen, acc =>
    let sa := ecMatches text p.extract ty (execAll text p.re) seen acc
    ecPatterns text ty ps sa.1 sa.2

def extractConstraints (text : List Char) (patterns : List CPattern)
    (ty : ConstraintKind) : List Constraint :=
  ecPatterns text ty patterns [] []

def extractOutputExpectations (text : List Char) : Option (Option OutputExpectation) :=
  let length := firstMatchLabel text LENGTH_PATTERNS
  let format := firstMatchLabel text FORMAT_PATTERNS
  -- The first structure pattern has no `g` flag yet is driven by a
  -- `while ((match = regex.exec(text)) !== null)` loop; `exec` of a
  -- non-global regex ignores `lastIndex` and keeps returning the same first
  -- match, so whenever this pattern matches at all the source loop never
  -- terminates.  The outer `none` models that divergence.
  if reTest withStructRE text then none
  else
    let structures := (execAll text includeRE).foldl
      (fun acc m =>
        let c := captureStr text m
        if !c.isEmpty then acc ++ [String.mk (trimL c)] else acc) []
    some (if length.isSome || format.isSome || !structures.isEmpty then
      some { length := some (length.getD .any), format := format,
             struct := if !structures.isEmpty then some structures else none }
    else none)

structure ParsedIntent where
  primaryGoal : String
  taskType : Option String
  audience : Option String
  domain : Option String
  hardConstraints : List Constraint
  softConstraints : List Constraint
  outputExpectations : Option OutputExpectation
  assumptions : List String
deriving DecidableEq, Inhabited

def generateAssumptions (parsed : ParsedIntent) : List String :=
  (if parsed.audience.isNone then
    ["Assuming general audience with moderate technical knowledge"] else []) ++
  (if (parsed.outputExpectations.bind (fun oe => oe.length)).isNone then
    ["Assuming medium-length output is acceptable"] else []) ++
  (if parsed.domain.isNone then
    ["No specific domain context detected"] else [])

/-- `parseIntent`; `none` models the non-terminating structure scan. -/
def parseIntent (text : List Char) : Option ParsedIntent :=
  match extractOutputExpectations text with
  | none => none
  | some outputExpectations =>
    let parsed : ParsedIntent :=
      { primaryGoal := String.mk (extractPrimaryGoal text)
        taskType := extractTaskType text
        audience := extractAudience text
        domain := extractDomain text
        hardConstraints := extractConstraints text HARD_CONSTRAINT_PATTERNS .hard
        softConstraints := extractConstraints text SOFT_CONSTRAINT_PATTERNS .soft
        outputExpectations := outputExpectations
        assumptions := [] }
    some { parsed with assumptions := generateAssumptions parsed }

/-! ### Notation renderer (irlGenerator.ts) -/

/-- The lines pushed by `generateIRL`, before the final newline join. -/
def generateIRLLines (intent : Intent) : List String :=
  ["@goal " ++ intent.primaryGoal]
  ++ (match intent.taskType with
      | some t => if !t.isEmpty then ["@task " ++ t] else []
      | none => [])
  ++ (match intent.audience with
      | some a => if !a.isEmpty then ["@audience " ++ a] else []
      | none => [])
  ++ (match intent.domain with
      | some d => if !d.isEmpty then ["@domain " ++ d] else []
      | none => [])
  ++ (if intent.constraints.hard.isEmpty then [] else
       ["", "@constraints hard"] ++ intent.constraints.hard.map (fun c => "- " ++ c.text))
  ++ (if intent.constraints.soft.isEmpty then [] else
       ["", "@preferences"] ++ intent.constraints.soft.map (fun c => "- " ++ c.text))
  ++ (match intent.outputExpectations with
      | none => []
      | some oe =>
        ["", "@output"]
        ++ (match oe.length with
            | some l => ["- Length: " ++ l.str]
            | none => [])
        ++ (match oe.format with
            | some f => if !f.isEmpty then ["- Format: " ++ f] else []
            | none => [])
        ++ (match oe.struct with
            | some st => if !st.isEmpty then
                ["- Structure: " ++ String.intercalate ", " st] else []
            | none => []))
  ++ (if intent.conflicts.isEmpty then [] else
       ["", "@conflicts"] ++ intent.conflicts.map (fun c =>
         "- " ++ (if c.severity = .blocking then "[BLOCKING]" else "[WARNING]")
           ++ " " ++ c.description))
  ++ (if intent.assumptions.isEmpty then [] else
       ["", "@assumptions"] ++ intent.assumptions.map (fun a => "- " ++ a))

def generateIRL (intent : Intent) : String :=
  String.intercalate "\n" (generateIRLLines intent)

/-! ### Instruction compiler (promptCompiler.ts) -/

/-- The closing-sentence phrase for each length (the JS `lengthMap`; `any` is
guarded out before the lookup). -/
def lengthPhrase : LengthCat → String
  | .short => "Keep the response concise"
  | .medium => "Provide a balanced, moderate-length response"
  | .long => "Provide a comprehensive, detailed response"
  | .any => ""

def compilePrompt (intent : Intent) : String :=
  let contextParts :=
    (match intent.audience with
     | some a => if !a.isEmpty then ["Target audience: " ++ a] else []
     | none => [])
    ++ (match intent.domain with
        | some d => if !d.isEmpty then ["Domain: " ++ d] else []
        | none => [])
  let allConstraints :=
    intent.constraints.hard.map (fun c => c.text)
    ++ intent.constraints.soft.map (fun c => c.text)
  let sections :=
    [intent.primaryGoal]
    ++ (if !contextParts.isEmpty then
         ["", String.intercalate ". " contextParts ++ "."] else [])
    ++ (if !allConstraints.isEmpty then
         ["", "Requirements:"] ++ allConstraints.map (fun t => "- " ++ t) else [])
    ++ (match intent.outputExpectations with
        | none => []
        | some oe =>
          let outputParts :=
            (match oe.length with
             | some l => if l ≠ .any then [lengthPhrase l] else []
             | none => [])
            ++ (match oe.format with
                | some f => if !f.isEmpty then ["Format the output as " ++ f] else []
                | none => [])
            ++ (match oe.struct with
                | some st => if !st.isEmpty then
                    ["Include: " ++ String.intercalate ", " st] else []
                | none => [])
          if !outputParts.isEmpty then
            ["", String.intercalate ". " outputParts ++ "."] else [])
  String.mk (trimL (String.intercalate "\n" sections).data)

/-! ### Entry point (normalizer.ts) -/

/-- The core `normalize`; `none` models the input classes on which the source
never returns (the non-terminating structure scan of
`extractOutputExpectations`). -/
def normalize (input : String) : Option NormalizeResponse :=
  match parseIntent input.data with
  | none => none
  | some parsed =>
    let conflicts := detectConflicts input.data
    let requiresClarification := conflicts.any (fun c => c.severity == .blocking)
    let intent : Intent :=
      { version := SCHEMA_VERSION
        primaryGoal := parsed.primaryGoal
        taskType := parsed.taskType
        audience := parsed.audience
        domain := parsed.domain
        constraints := ⟨parsed.hardConstraints, parsed.softConstraints⟩
        outputExpectations := parsed.outputExpectations
        conflicts := conflicts
        requiresClarification := requiresClarification
        rawInput := input
        assumptions := parsed.assumptions }
    some ⟨intent, generateIRL intent, compilePrompt intent⟩

/-! ### General facts about the pipeline -/

/-- Spec-level case-insensitive substring containment (both sides folded). -/
def ciSubstring (needle hay : List Char) : Prop :=
  containsL (lowerL hay) (lowerL needle) = true

theorem normalize_eq_some {s : String} {r : NormalizeResponse}
    (h : normalize s = some r) :
    ∃ parsed, parseIntent s.data = some parsed ∧
      r.intent.version = SCHEMA_VERSION ∧
      r.intent.primaryGoal = parsed.primaryGoal ∧
      r.intent.constraints = ⟨parsed.hardConstraints, parsed.softConstraints⟩ ∧
      r.intent.conflicts = detectConflicts s.data ∧
      r.intent.requiresClarification
        = (detectConflicts s.data).any (fun c => c.severity == .blocking) ∧
      r.intent.rawInput = s := by
  unfold normalize at h
  cases hp : parseIntent s.data with
  | none => rw [hp] at h; exact absurd h (by simp)
  | some parsed =>
    rw [hp] at h
    simp only [Option.some.injEq] at h
    subst h
    exact ⟨parsed, rfl, rfl, rfl, rfl, rfl, rfl, rfl⟩

/-! ## C7 — normalize on the empty string -/

/-- C7: `normalize ""` returns (rather than diverging), with empty primary
goal, empty hard and soft constraint lists, no conflicts, and
`requiresClarification = false`. -/
theorem C7_normalize_empty :
    (normalize "").map (fun r =>
      (r.intent.primaryGoal, r.intent.constraints.hard,
       r.intent.constraints.soft, r.intent.conflicts,
       r.intent.requiresClarification))
    = some ("", [], [], [], false) := by decide

/-! ## C8 — the structure scan loops forever on matching inputs -/

/-- C8: on the input "with sections" the first structure pattern matches, and
the source `while ((match = regex.exec(text)) !== null)` loop over that
non-global regex re-returns the same first match forever, so `normalize`
never returns; in the embedding that divergence is the `none` result. -/
theorem C8_structure_scan_diverges :
    reTest withStructRE "with sections".data = true ∧
    normalize "with sections" = none := by
  constructor
  · decide
  · decide

/-! ## C9 — rawInput is preserved verbatim -/

/-- C9: whenever `normalize` returns, the `rawInput` field of the produced
intent is exactly the input string, untrimmed and unnormalized. -/
theorem C9_rawInput_verbatim (s : String) (r : NormalizeResponse)
    (h : normalize s = some r) : r.intent.rawInput = s :=
  (normalize_eq_some h).choose_spec.2.2.2.2.2.2

theorem C9_rawInput_verbatim_witness :
    ((normalize "hi").getD default).intent.rawInput = "hi" :=
  C9_rawInput_verbatim "hi" ((normalize "hi").getD default) (by decide)

/-! ## C10 — constraint type tags agree with their list -/

theorem ecMatches_type_invariant (text : List Char)
    (extract : List Char → List Char) (ty : ConstraintKind) :
    ∀ ms seen acc, (∀ c ∈ acc, c.type = ty) →
      ∀ c ∈ (ecMatches text extract ty ms seen acc).2, c.type = ty := by
  intro ms
  induction ms with
  | nil => intro seen acc hacc c hc; exact hacc c hc
  | cons m ms ih =>
    intro seen acc hacc c hc
    rw [ecMatches] at hc
    split at hc
    · exact ih _ _ (by
        intro c' hc'
        rcases List.mem_append.1 hc' with h' | h'
        · exact hacc c' h'
        · rcases List.mem_singleton.1 h' with rfl
          rfl) c hc
    · exact ih _ _ hacc c hc

theorem ecPatterns_type_invariant (text : List Char) (ty : ConstraintKind) :
    ∀ ps seen acc, (∀ c ∈ acc, c.type = ty) →
      ∀ c ∈ ecPatterns text ty ps seen acc, c.type = ty := by
  intro ps
  induction ps with
  | nil => intro seen acc hacc c hc; exact hacc c hc
  | cons p ps ih =>
    intro seen acc hacc c hc
    rw [ecPatterns] at hc
    exact ih _ _ (ecMatches_type_invariant text p.extract ty _ seen acc hacc) c hc

theorem extractConstraints_type (text : List Char) (patterns : List CPattern)
    (ty : ConstraintKind) : ∀ c ∈ extractConstraints text patterns ty, c.type = ty :=
  ecPatterns_type_invariant text ty patterns [] [] (by intro c hc; cases hc)

/-- C10: in every intent `normalize` returns, each constraint stored in the
`hard` list is tagged `hard` and each constraint stored in the `soft` list is
tagged `soft`. -/
theorem C10_type_tags_match_list (s : String) (r : NormalizeResponse)
    (h : normalize s = some r) :
    (∀ c ∈ r.intent.constraints.hard, c.type = .hard) ∧
    (∀ c ∈ r.intent.constraints.soft, c.type = .soft) := by
  obtain ⟨parsed, hp, -, -, hcs, -⟩ := normalize_eq_some h
  have hhard : parsed.hardConstraints
      = extractConstraints s.data HARD_CONSTRAINT_PATTERNS .hard := by
    unfold parseIntent at hp
    split at hp
    · exact absurd hp (by simp)
    · simp only [Option.some.injEq] at hp; rw [← hp]
  have hsoft : parsed.softConstraints
      = extractConstraints s.data SOFT_CONSTRAINT_PATTERNS .soft := by
    unfold parseIntent at hp
    split at hp
    · exact absurd hp (by simp)
    · simp only [Option.some.injEq] at hp; rw [← hp]
  rw [hcs]
  constructor
  · intro c hc
    exact extractConstraints_type s.data HARD_CONSTRAINT_PATTERNS .hard c
      (by rw [← hhard]; exact hc)
  · intro c hc
    exact extractConstraints_type s.data SOFT_CONSTRAINT_PATTERNS .soft c
      (by rw [← hsoft]; exact hc)

theorem C10_type_tags_match_list_witness :
    (∀ c ∈ ((normalize "must be zesty").getD default).intent.constraints.hard,
        c.type = .hard) ∧
    (∀ c ∈ ((normalize "must be zesty").getD default).intent.constraints.soft,
        c.type = .soft) :=
  C10_type_tags_match_list "must be zesty"
    ((normalize "must be zesty").getD default) (by decide)

/-! ## C1 — requiresClarification iff a blocking conflict -/

/-- C1: in every intent `normalize` returns, `requiresClarification` is true
exactly when the conflicts list holds an entry of blocking severity; and the
minimal/feature-rich rule is the only entry of the conflict table with
blocking severity. -/
theorem C1_requiresClarification_iff (s : String) (r : NormalizeResponse)
    (h : normalize s = some r) :
    (r.intent.requiresClarification = true ↔
      ∃ c ∈ r.intent.conflicts, c.severity = .blocking) ∧
    (CONFLICT_RULES.filter (fun rule => rule.severity == .blocking)).map
        (fun rule => rule.terms) = [("minimal", "feature-rich")] := by
  obtain ⟨parsed, -, -, -, -, hconf, hreq, -⟩ := normalize_eq_some h
  refine ⟨?_, by decide⟩
  rw [hconf, hreq, List.any_eq_true]
  constructor
  · rintro ⟨c, hc, hsev⟩
    exact ⟨c, hc, by simpa using hsev⟩
  · rintro ⟨c, hc, hsev⟩
    exact ⟨c, hc, by simpa using hsev⟩

theorem C1_requiresClarification_iff_witness :
    (((normalize "minimal feature-rich").getD default).intent.requiresClarification
        = true ↔
      ∃ c ∈ ((normalize "minimal feature-rich").getD default).intent.conflicts,
        c.severity = .blocking) ∧
    (CONFLICT_RULES.filter (fun rule => rule.severity == .blocking)).map
        (fun rule => rule.terms) = [("minimal", "feature-rich")] :=
  C1_requiresClarification_iff "minimal feature-rich"
    ((normalize "minimal feature-rich").getD default) (by decide)

/-! ## C2 — each conflict rule fires independently, exactly once -/

theorem count_map_filter_unique (f : ConflictRule → Conflict)
    (r : ConflictRule) (p : ConflictRule → Bool) :
    ∀ l : List ConflictRule, r ∈ l →
      (∀ a ∈ l, f a = f r → a = r) → l.Nodup →
      ((l.filter p).map f).count (f r) = if p r then 1 else 0 := by
  intro l
  induction l with
  | nil => intro hmem; cases hmem
  | cons a t ih =>
    intro hmem hinj hnd
    rcases List.mem_cons.1 hmem with rfl | hmt
    · have hrt : r ∉ t := (List.nodup_cons.1 hnd).1
      have hcount0 : ((t.filter p).map f).count (f r) = 0 := by
        rw [List.count_eq_zero]
        intro hc
        rcases List.mem_map.1 hc with ⟨b, hb, hfb⟩
        have hbt := List.mem_filter.1 hb
        have : b = r := hinj b (List.mem_cons_of_mem _ hbt.1) hfb
        exact hrt (this ▸ hbt.1)
      by_cases hp : p r = true
      · rw [List.filter_cons_of_pos hp, List.map_cons, List.count_cons_self,
          hcount0, hp]
        rfl
      · rw [List.filter_cons_of_neg hp, hcount0, if_neg hp]
    · have har : a ≠ r := by
        rintro rfl
        exact (List.nodup_cons.1 hnd).1 hmt
      have hrec := ih hmt (fun b hb hfb => hinj b (List.mem_cons_of_mem _ hb) hfb)
        (List.nodup_cons.1 hnd).2
      by_cases hp : p a = true
      · rw [List.filter_cons_of_pos hp, List.map_cons, List.count_cons_of_ne, hrec]
        intro hfa
        exact har (hinj a (List.mem_cons_self a t) hfa.symm)
      · rw [List.filter_cons_of_neg hp, hrec]

theorem ruleConflict_injOn :
    ∀ a ∈ CONFLICT_RULES, ∀ b ∈ CONFLICT_RULES,
      ruleConflict a = ruleConflict b → a = b := by decide

theorem CONFLICT_RULES_nodup : CONFLICT_RULES.Nodup := by decide

theorem CONFLICT_RULES_terms_lower :
    ∀ rule ∈ CONFLICT_RULES,
      lowerL rule.terms.1.data = rule.terms.1.data ∧
      lowerL rule.terms.2.data = rule.terms.2.data := by decide

/-- C2: for every rule of the conflict table and every input, the output of
`detectConflicts` holds exactly one conflict carrying that rule's type,
severity, description and terms when both terms occur case-insensitively in
the input, and none for that rule when they do not both occur; rules fire
independently of one another, with no cross-rule deduplication. -/
theorem C2_rule_fires_iff_both_terms (s : List Char) (rule : ConflictRule)
    (hr : rule ∈ CONFLICT_RULES) :
    ((ciSubstring rule.terms.1.data s ∧ ciSubstring rule.terms.2.data s) →
      (detectConflicts s).count (ruleConflict rule) = 1) ∧
    (¬(ciSubstring rule.terms.1.data s ∧ ciSubstring rule.terms.2.data s) →
      (detectConflicts s).count (ruleConflict rule) = 0) := by
  have hlow := CONFLICT_RULES_terms_lower rule hr
  have hfire : ruleFires (lowerL s) rule = true ↔
      (ciSubstring rule.terms.1.data s ∧ ciSubstring rule.terms.2.data s) := by
    rw [ruleFires, Bool.and_eq_true, ciSubstring, ciSubstring, hlow.1, hlow.2]
  have hcount := count_map_filter_unique ruleConflict rule
    (ruleFires (lowerL s)) CONFLICT_RULES hr
    (fun a ha hfa => ruleConflict_injOn a ha rule hr hfa)
    CONFLICT_RULES_nodup
  rw [detectConflicts]
  constructor
  · intro hci
    rw [hcount, if_pos (hfire.2 hci)]
  · intro hci
    rw [hcount, if_neg (fun hp => hci (hfire.1 hp))]

theorem C2_rule_fires_iff_both_terms_witness :
    ((ciSubstring ("simple", "detailed").1.data "simple and detailed".data ∧
        ciSubstring ("simple", "detailed").2.data "simple and detailed".data) →
      (detectConflicts "simple and detailed".data).count
        (ruleConflict ⟨("simple", "detailed"),
          "Request asks for both simple and detailed output", .warning,
          .constraint⟩) = 1) ∧
    (¬(ciSubstring ("simple", "detailed").1.data "simple and detailed".data ∧
        ciSubstring ("simple", "detailed").2.data "simple and detailed".data) →
      (detectConflicts "simple and detailed".data).count
        (ruleConflict ⟨("simple", "detailed"),
          "Request asks for both simple and detailed output", .warning,
          .constraint⟩) = 0) :=
  C2_rule_fires_iff_both_terms "simple and detailed".data
    ⟨("simple", "detailed"), "Request asks for both simple and detailed output",
      .warning, .constraint⟩ (by decide)

/-! ## C6 — the "any" length is NOT omitted from the notation -/

/-- C6 counterexample: the input "output as JSON" yields an intent whose
output expectations carry `length = any`, and the rendered notation contains
the line "- Length: any" — the claim predicts no Length line for this
intent. -/
theorem C6_counterexample :
    (normalize "output as JSON").map (fun r =>
      (r.intent.outputExpectations.map (fun oe => oe.length),
       (generateIRLLines r.intent).contains "- Length: any",
       containsL r.irl.data "- Length: any".data))
    = some (some (some .any), true, true) := by decide

/-- C6 amended: a non-null length, `any` included, always produces its
"- Length: ..." line in the notation; only a null length omits it. -/
theorem C6_amended_length_line (intent : Intent) (oe : OutputExpectation)
    (l : LengthCat) (hoe : intent.outputExpectations = some oe)
    (hl : oe.length = some l) :
    ("- Length: " ++ l.str) ∈ generateIRLLines intent := by
  simp only [generateIRLLines, hoe, hl]
  simp [List.mem_append]

theorem C6_amended_length_line_witness :
    ("- Length: " ++ LengthCat.any.str) ∈
      generateIRLLines ((normalize "output as JSON").getD default).intent :=
  C6_amended_length_line ((normalize "output as JSON").getD default).intent
    ⟨some .any, some "JSON", none⟩ .any (by decide) rfl

/-! ## C3 — constraint length bounds and per-list deduplication -/

/-- C3 counterexample: the constraint text "nice" of length exactly 4 is
kept, refuting the claimed strict lower bound of 4 (the source keeps lengths
4 through 99 inclusive). -/
theorem C3_counterexample :
    (normalize "It must be nice.").map (fun r =>
      (r.intent.constraints.hard.map (fun c => (c.text, c.text.length)),
       r.intent.constraints.soft))
    = some ([("nice", 4)], []) := by decide

theorem ecMatches_bounds_invariant (text : List Char)
    (extract : List Char → List Char) (ty : ConstraintKind) :
    ∀ ms seen acc,
      (∀ c ∈ acc, 4 ≤ c.text.length ∧ c.text.length ≤ 99) →
      ∀ c ∈ (ecMatches text extract ty ms seen acc).2,
        4 ≤ c.text.length ∧ c.text.length ≤ 99 := by
  intro ms
  induction ms with
  | nil => intro seen acc hacc c hc; exact hacc c hc
  | cons m ms ih =>
    intro seen acc hacc c hc
    rw [ecMatches] at hc
    split at hc
    · next hcond =>
      refine ih _ _ ?_ c hc
      intro c' hc'
      rcases List.mem_append.1 hc' with h' | h'
      · exact hacc c' h'
      · rcases List.mem_singleton.1 h' with rfl
        simp only [Bool.and_eq_true, decide_eq_true_eq] at hcond
        exact ⟨hcond.1.1, Nat.lt_succ_iff.1 hcond.1.2⟩
    · exact ih _ _ hacc c hc

theorem ecPatterns_bounds_invariant (text : List Char) (ty : ConstraintKind) :
    ∀ ps seen acc,
      (∀ c ∈ acc, 4 ≤ c.text.length ∧ c.text.length ≤ 99) →
      ∀ c ∈ ecPatterns text ty ps seen acc,
        4 ≤ c.text.length ∧ c.text.length ≤ 99 := by
  intro ps
  induction ps with
  | nil => intro seen acc hacc c hc; exact hacc c hc
  | cons p ps ih =>
    intro seen acc hacc c hc
    rw [ecPatterns] at hc
    exact ih _ _ (ecMatches_bounds_invariant text p.extract ty _ seen acc hacc) c hc

theorem extractConstraints_bounds (text : List Char) (patterns : List CPattern)
    (ty : ConstraintKind) :
    ∀ c ∈ extractConstraints text patterns ty,
      4 ≤ c.text.length ∧ c.text.length ≤ 99 :=
  ecPatterns_bounds_invariant text ty patterns [] [] (by intro c hc; cases hc)

theorem ecMatches_nodup_invariant (text : List Char)
    (extract : List Char → List Char) (ty : ConstraintKind) :
    ∀ ms seen acc,
      (∀ c ∈ acc, lowerL c.text.data ∈ seen) →
      (acc.map (fun c => lowerL c.text.data)).Nodup →
      (∀ c ∈ (ecMatches text extract ty ms seen acc).2,
          lowerL c.text.data ∈ (ecMatches text extract ty ms seen acc).1) ∧
      ((ecMatches text extract ty ms seen acc).2.map
          (fun c => lowerL c.text.data)).Nodup := by
  intro ms
  induction ms with
  | nil => intro seen acc hseen hnd; exact ⟨hseen, hnd⟩
  | cons m ms ih =>
    intro seen acc hseen hnd
    rw [ecMatches]
    split
    · next hcond =>
      simp only [Bool.and_eq_true, Bool.not_eq_true', decide_eq_true_eq] at hcond
      have hnew : lowerL (extract (captureStr text m)) ∉ seen := by
        intro hmem
        have := List.elem_eq_true_of_mem hmem
        rw [List.contains, this] at hcond
        simp at hcond
      refine ih _ _ ?_ ?_
      · intro c hc
        rcases List.mem_append.1 hc with h' | h'
        · exact List.mem_append_left _ (hseen c h')
        · rcases List.mem_singleton.1 h' with rfl
          exact List.mem_append_right _ (by simp [String.data])
      · rw [List.map_append]
        refine List.Nodup.append hnd (by simp) ?_
        intro x hx hy
        rcases List.mem_map.1 hx with ⟨c, hc, rfl⟩
        simp only [List.map_cons, List.map_nil, List.mem_singleton] at hy
        have : lowerL (extract (captureStr text m)) ∈ seen := by
          rw [← hy] at hnew ⊢
          exact absurd (hseen c hc) hnew
        exact hnew this
    · exact ih _ _ hseen hnd

theorem ecPatterns_nodup_invariant (text : List Char) (ty : ConstraintKind) :
    ∀ ps seen acc,
      (∀ c ∈ acc, lowerL c.text.data ∈ seen) →
      (acc.map (fun c => lowerL c.text.data)).Nodup →
      ((ecPatterns text ty ps seen acc).map (fun c => lowerL c.text.data)).Nodup := by
  intro ps
  induction ps with
  | nil => intro seen acc hseen hnd; exact hnd
  | cons p ps ih =>
    intro seen acc hseen hnd
    rw [ecPatterns]
    have hm := ecMatches_nodup_invariant text p.extract ty
      (execAll text p.re) seen acc hseen hnd
    exact ih _ _ hm.1 hm.2

theorem extractConstraints_nodup (text : List Char) (patterns : List CPattern)
    (ty : ConstraintKind) :
    ((extractConstraints text patterns ty).map
      (fun c => lowerL c.text.data)).Nodup :=
  ecPatterns_nodup_invariant text ty patterns [] []
    (by intro c hc; cases hc) (by simp)

/-- C3 amended: every constraint text of the returned intent has length at
least 4 and at most 99 (the bound is inclusive, not the claimed strict one);
within each of the two lists no two texts are case-insensitively equal, the
first occurrence being the one kept (shown by the casing "NICE" surviving a
later lower-case duplicate); and the lists are deduplicated independently —
on the closing input the very same text "zesty" appears in both the hard and
the soft list. -/
theorem C3_amended_bounds_and_dedup (s : String) (r : NormalizeResponse)
    (h : normalize s = some r) :
    (∀ c ∈ r.intent.constraints.hard ++ r.intent.constraints.soft,
        4 ≤ c.text.length ∧ c.text.length ≤ 99) ∧
    (r.intent.constraints.hard.map (fun c => lowerL c.text.data)).Nodup ∧
    (r.intent.constraints.soft.map (fun c => lowerL c.text.data)).Nodup ∧
    (normalize "It must be NICE. It must be nice.").map (fun r3 =>
        r3.intent.constraints.hard.map (fun c => c.text))
      = some ["NICE"] ∧
    (normalize "Must be zesty. Should be zesty.").map (fun r2 =>
        (r2.intent.constraints.hard.map (fun c => c.text),
         r2.intent.constraints.soft.map (fun c => c.text)))
      = some (["zesty"], ["zesty"]) := by
  obtain ⟨parsed, hp, -, -, hcs, -⟩ := normalize_eq_some h
  have hhard : parsed.hardConstraints
      = extractConstraints s.data HARD_CONSTRAINT_PATTERNS .hard := by
    unfold parseIntent at hp
    split at hp
    · exact absurd hp (by simp)
    · simp only [Option.some.injEq] at hp; rw [← hp]
  have hsoft : parsed.softConstraints
      = extractConstraints s.data SOFT_CONSTRAINT_PATTERNS .soft := by
    unfold parseIntent at hp
    split at hp
    · exact absurd hp (by simp)
    · simp only [Option.some.injEq] at hp; rw [← hp]
  rw [hcs]
  refine ⟨?_, ?_, ?_, by decide, by decide⟩
  · intro c hc
    rcases List.mem_append.1 hc with h' | h'
    · exact extractConstraints_bounds s.data HARD_CONSTRAINT_PATTERNS .hard c
        (by rw [← hhard]; exact h')
    · exact extractConstraints_bounds s.data SOFT_CONSTRAINT_PATTERNS .soft c
        (by rw [← hsoft]; exact h')
  · rw [show (⟨parsed.hardConstraints, parsed.softConstraints⟩ : Constraints).hard
        = parsed.hardConstraints from rfl, hhard]
    exact extractConstraints_nodup s.data HARD_CONSTRAINT_PATTERNS .hard
  · rw [show (⟨parsed.hardConstraints, parsed.softConstraints⟩ : Constraints).soft
        = parsed.softConstraints from rfl, hsoft]
    exact extractConstraints_nodup s.data SOFT_CONSTRAINT_PATTERNS .soft

theorem C3_amended_bounds_and_dedup_witness :
    (∀ c ∈ ((normalize "It must be nice and MUST BE NICE.").getD
          default).intent.constraints.hard ++
        ((normalize "It must be nice and MUST BE NICE.").getD
          default).intent.constraints.soft,
        4 ≤ c.text.length ∧ c.text.length ≤ 99) ∧
    (((normalize "It must be nice and MUST BE NICE.").getD
        default).intent.constraints.hard.map
      (fun c => lowerL c.text.data)).Nodup ∧
    (((normalize "It must be nice and MUST BE NICE.").getD
        default).intent.constraints.soft.map
      (fun c => lowerL c.text.data)).Nodup ∧
    (normalize "It must be NICE. It must be nice.").map (fun r3 =>
        r3.intent.constraints.hard.map (fun c => c.text))
      = some ["NICE"] ∧
    (normalize "Must be zesty. Should be zesty.").map (fun r2 =>
        (r2.intent.constraints.hard.map (fun c => c.text),
         r2.intent.constraints.soft.map (fun c => c.text)))
      = some (["zesty"], ["zesty"]) :=
  C3_amended_bounds_and_dedup "It must be nice and MUST BE NICE."
    ((normalize "It must be nice and MUST BE NICE.").getD default) (by decide)

/-! ### Character-level facts -/

theorem ws_fix {c : Char} (h : isJsWs c = true) : jsLower c = c := by
  unfold jsLower
  split
  all_goals first | rfl | exact absurd h (by decide)

theorem jsLower_eq_dot (c : Char) : jsLower c = '.' ↔ c = '.' := by
  unfold jsLower
  split
  all_goals first | exact Iff.rfl | decide

theorem jsLower_eq_comma (c : Char) : jsLower c = ',' ↔ c = ',' := by
  unfold jsLower
  split
  all_goals first | exact Iff.rfl | decide

theorem ws_lower_ne {d : Char} (c : Char) (hd : isJsWs d = true)
    (hc : isJsWs c = false) : (jsLower d == c) = false := by
  rw [ws_fix hd]
  cases hdc : d == c with
  | false => rfl
  | true =>
    rw [beq_iff_eq] at hdc
    rw [hdc] at hd
    rw [hd] at hc
    cases hc

/-! ### Basic facts about the matcher -/

theorem nthc_eq_get? : ∀ (l : List Char) (n : Nat), nthc l n = l[n]? := by
  intro l
  induction l with
  | nil => intro n; cases n <;> rfl
  | cons c t ih =>
    intro n
    cases n with
    | zero => rw [nthc, List.getElem?_cons_zero]
    | succ m => rw [nthc, List.getElem?_cons_succ]; exact ih m

theorem drop_eq_cons {s : List Char} {p : Nat} {d : Char} {t : List Char}
    (h : s.drop p = d :: t) : nthc s p = some d ∧ s.drop (p + 1) = t := by
  constructor
  · rw [nthc_eq_get?, ← List.head?_drop, h]; rfl
  · rw [← List.drop_drop, h]; rfl

theorem drop_eq_nil {s : List Char} {p : Nat} (h : s.drop p = []) :
    nthc s p = none := by
  rw [nthc_eq_get?, ← List.head?_drop, h]; rfl

theorem mergeCap_none (c : Cap) : mergeCap none c = c := by
  cases c <;> rfl

theorem map_merge_none (l : List (Nat × Cap)) :
    l.map (fun b => (b.1, mergeCap none b.2)) = l := by
  induction l with
  | nil => rfl
  | cons a t ih => cases a with
    | mk e c => simp [mergeCap_none, ih]

theorem catMap_nil (f : α → List β) : catMap f [] = [] := rfl

theorem catMap_cons (f : α → List β) (a : α) (t : List α) :
    catMap f (a :: t) = f a ++ catMap f t := rfl

theorem catMap_append (f : α → List β) :
    ∀ l1 l2 : List α, catMap f (l1 ++ l2) = catMap f l1 ++ catMap f l2 := by
  intro l1
  induction l1 with
  | nil => intro l2; rfl
  | cons a t ih => intro l2; simp [catMap_cons, ih, List.append_assoc]

theorem catMap_eq_of_tail_empty (f : α → List β) (a : α) (t : List α)
    (h : ∀ b ∈ t, f b = []) : catMap f (a :: t) = f a := by
  rw [catMap_cons]
  have : catMap f t = [] := by
    induction t with
    | nil => rfl
    | cons b u ih =>
      rw [catMap_cons, h b (List.mem_cons_self b u),
        ih (fun x hx => h x (List.mem_cons_of_mem b hx))]
      rfl
  rw [this, List.append_nil]

theorem seq_def (s : List Char) (r1 r2 : RE) (p : Nat) :
    reMatch s (.seq r1 r2) p =
      catMap (fun a => (reMatch s r2 a.1).map (fun b => (b.1, mergeCap a.2 b.2)))
        (reMatch s r1 p) := rfl

theorem seq_lit_eq (s : List Char) (cs : List Char) (r2 : RE) (p : Nat) :
    reMatch s (.seq (.lit cs) r2) p =
      match litAt s cs p with
      | some e => reMatch s r2 e
      | none => [] := by
  rw [seq_def]
  cases h : litAt s cs p with
  | some e =>
    show catMap _ (reMatch s (.lit cs) p) = _
    rw [show reMatch s (.lit cs) p = [(e, none)] by rw [reMatch, h]]
    rw [catMap_eq_of_tail_empty _ _ _ (by intro b hb; cases hb)]
    exact map_merge_none _
  | none =>
    show catMap _ (reMatch s (.lit cs) p) = _
    rw [show reMatch s (.lit cs) p = [] by rw [reMatch, h]]
    rfl

theorem seq_wb_eq (s : List Char) (r2 : RE) (p : Nat) :
    reMatch s (.seq .wb r2) p =
      if wbAt s p then reMatch s r2 p else [] := by
  rw [seq_def]
  by_cases h : wbAt s p
  · rw [if_pos h, show reMatch s .wb p = [(p, none)] by rw [reMatch, if_pos h],
      catMap_eq_of_tail_empty _ _ _ (by intro b hb; cases hb)]
    exact map_merge_none _
  · rw [if_neg h, show reMatch s .wb p = [] by rw [reMatch, if_neg h]]
    rfl

theorem revRange_succ (g : Nat → Nat × Cap) (k : Nat) :
    ((List.range (k + 1)).map g).reverse = g k :: ((List.range k).map g).reverse := by
  rw [List.range_succ, List.map_append, List.reverse_append]
  rfl

theorem plusG_eq (s : List Char) (cls : Char → Bool) (p : Nat) :
    reMatch s (.plusG cls) p =
      ((List.range (runLen cls (s.drop p))).map
        (fun i => (p + 1 + i, (none : Cap)))).reverse := rfl

theorem plusL_eq (s : List Char) (cls : Char → Bool) (p : Nat) :
    reMatch s (.plusL cls) p =
      (List.range (runLen cls (s.drop p))).map
        (fun i => (p + 1 + i, (none : Cap))) := rfl

theorem runLen_char {cls : Char → Bool} :
    ∀ (l : List Char) (j : Nat), j < runLen cls l →
      ∃ c, l[j]? = some c ∧ cls c = true := by
  intro l
  induction l with
  | nil => intro j h; rw [runLen] at h; exact absurd h (Nat.not_lt_zero j)
  | cons c t ih =>
    intro j h
    rw [runLen] at h
    by_cases hc : cls c = true
    · rw [if_pos hc] at h
      cases j with
      | zero => exact ⟨c, by rw [List.getElem?_cons_zero], hc⟩
      | succ m =>
        obtain ⟨x, hx, hxcls⟩ := ih m (by omega)
        exact ⟨x, by rw [List.getElem?_cons_succ]; exact hx, hxcls⟩
    · rw [if_neg hc] at h
      exact absurd h (Nat.not_lt_zero j)

theorem run_char_at {s : List Char} {p j : Nat} (hj : j < runLen cls (s.drop p)) :
    ∃ c, nthc s (p + j) = some c ∧ cls c = true := by
  obtain ⟨c, hc, hcls⟩ := runLen_char (s.drop p) j hj
  refine ⟨c, ?_, hcls⟩
  rw [nthc_eq_get?, ← List.getElem?_drop]
  exact hc

/-- A sequence headed by a greedy `\s+`-style plus whose continuation fails at
every non-maximal end reduces to the continuation at the run's end. -/
theorem seq_plusG_eq {s : List Char} {cls : Char → Bool} {r2 : RE} {p k : Nat}
    (hk : runLen cls (s.drop p) = k) (hkpos : 0 < k)
    (hfail : ∀ j, 1 ≤ j → j < k → reMatch s r2 (p + j) = []) :
    reMatch s (.seq (.plusG cls) r2) p = reMatch s r2 (p + k) := by
  rw [seq_def, plusG_eq, hk]
  cases k with
  | zero => exact absurd hkpos (by omega)
  | succ m =>
    rw [revRange_succ]
    rw [catMap_eq_of_tail_empty]
    · show (reMatch s r2 (p + 1 + m)).map _ = _
      rw [show p + 1 + m = p + (m + 1) by omega, map_merge_none]
    · intro b hb
      rw [List.mem_reverse] at hb
      rcases List.mem_map.1 hb with ⟨i, hi, rfl⟩
      rw [List.mem_range] at hi
      show (reMatch s r2 (p + 1 + i)).map _ = []
      rw [show p + 1 + i = p + (i + 1) by omega,
        hfail (i + 1) (by omega) (by omega)]
      rfl

theorem seq_plusG_zero {s : List Char} {cls : Char → Bool} {r2 : RE} {p : Nat}
    (hk : runLen cls (s.drop p) = 0) :
    reMatch s (.seq (.plusG cls) r2) p = [] := by
  rw [seq_def, plusG_eq, hk]
  rfl

theorem plusG_head (s : List Char) (cls : Char → Bool) (p : Nat) :
    (reMatch s (.plusG cls) p).head? =
      if runLen cls (s.drop p) = 0 then none
      else some (p + runLen cls (s.drop p), none) := by
  rw [plusG_eq]
  cases hk : runLen cls (s.drop p) with
  | zero => rfl
  | succ m =>
    rw [revRange_succ]
    simp only [List.head?_cons]
    rw [if_neg (by omega)]
    show some (p + 1 + m, (none : Cap)) = some (p + (m + 1), none)
    rw [show p + 1 + m = p + (m + 1) by omega]

theorem litAt_fail_head {s : List Char} {d c0 : Char} {cs : List Char} {q : Nat}
    (hd : nthc s q = some d) (hne : (jsLower d == jsLower c0) = false) :
    litAt s (c0 :: cs) q = none := by
  rw [litAt, hd]
  simp [hne]

theorem litAt_head_char {s : List Char} {c0 : Char} {cs : List Char} {q e : Nat}
    (h : litAt s (c0 :: cs) q = some e) :
    ∃ d, nthc s q = some d ∧ (jsLower d == jsLower c0) = true := by
  rw [litAt] at h
  cases hd : nthc s q with
  | none => rw [hd] at h; cases h
  | some d =>
    rw [hd] at h
    refine ⟨d, rfl, ?_⟩
    by_contra hne
    rw [Bool.not_eq_true] at hne
    simp [hne] at h

/-! ### Bridges between the matcher and direct string scanning -/

/-- Direct case-insensitive literal removal from the front of a string. -/
def dropLitCI : List Char → List Char → Option (List Char)
  | [], g => some g
  | _ :: _, [] => none
  | c :: cs, d :: g => if jsLower d == jsLower c then dropLitCI cs g else none

/-- Direct removal of a non-empty maximal whitespace run. -/
def dropWsRun : List Char → Option (List Char)
  | [] => none
  | c :: t => if isJsWs c then some (t.dropWhile isJsWs) else none

theorem litAt_bridge {s : List Char} :
    ∀ (cs : List Char) (p : Nat),
      litAt s cs p =
        (dropLitCI cs (s.drop p)).map (fun _ => p + cs.length) ∧
      ((dropLitCI cs (s.drop p)).isSome →
        dropLitCI cs (s.drop p) = some (s.drop (p + cs.length))) := by
  intro cs
  induction cs with
  | nil =>
    intro p
    refine ⟨?_, ?_⟩
    · rw [litAt, dropLitCI]; rfl
    · intro _; rw [dropLitCI]; rfl
  | cons c cs ih =>
    intro p
    cases hdrop : s.drop p with
    | nil =>
      have hnth := drop_eq_nil hdrop
      refine ⟨?_, ?_⟩
      · rw [litAt, hnth, dropLitCI]
        rfl
      · rw [dropLitCI]
        intro h
        cases h
    | cons d t =>
      obtain ⟨hnth, hdrop1⟩ := drop_eq_cons hdrop
      by_cases hcmp : (jsLower d == jsLower c) = true
      · obtain ⟨ih1, ih2⟩ := ih (p + 1)
        rw [hdrop1] at ih1 ih2
        refine ⟨?_, ?_⟩
        · rw [litAt, hnth]
          show (if (jsLower d == jsLower c) = true
              then litAt s cs (p + 1) else none) = _
          rw [if_pos hcmp, dropLitCI, if_pos hcmp, ih1]
          cases dropLitCI cs t with
          | none => rfl
          | some a =>
            simp only [Option.map_some', Option.some.injEq, List.length_cons]
            omega
        · rw [dropLitCI, if_pos hcmp]
          intro hsome
          rw [ih2 hsome]
          rw [show p + (c :: cs).length = p + 1 + cs.length by
            rw [List.length_cons]; omega]
      · rw [Bool.not_eq_true] at hcmp
        refine ⟨?_, ?_⟩
        · rw [litAt, hnth]
          show (if (jsLower d == jsLower c) = true
              then litAt s cs (p + 1) else none) = _
          rw [dropLitCI]
          simp [hcmp]
        · rw [dropLitCI]
          simp [hcmp]

theorem dropWhile_eq_drop_runLen (cls : Char → Bool) :
    ∀ l : List Char, l.dropWhile cls = l.drop (runLen cls l) := by
  intro l
  induction l with
  | nil => rfl
  | cons c t ih =>
    rw [runLen, List.dropWhile_cons]
    by_cases hc : cls c = true
    · rw [if_pos hc, if_pos hc, ih]; rfl
    · rw [if_neg hc, if_neg hc]; rfl

theorem dropWsRun_bridge (l : List Char) :
    dropWsRun l =
      if runLen isJsWs l = 0 then none
      else some (l.drop (runLen isJsWs l)) := by
  cases l with
  | nil => rfl
  | cons c t =>
    rw [dropWsRun, runLen]
    by_cases hc : isJsWs c = true
    · rw [if_pos hc, if_pos hc, if_neg (by omega), dropWhile_eq_drop_runLen]
      rfl
    · simp [hc]

/-! ### Direct (engine-free) readings of the goal filler patterns

These functions restate each filler pattern as plain string scanning: drop
the case-insensitive literal word, then a non-empty maximal whitespace run,
with the optional "you" of the two `(you\s+)?to` fillers taken greedily.
They are the reference against which the regex-engine behaviour of
`extractPrimaryGoal` is proved equal. -/

def fillerWordWs (w : List Char) (g : List Char) : Option (List Char) :=
  match dropLitCI w g with
  | some r => dropWsRun r
  | none => none

def fillerTwoWords (w1 w2 : List Char) (g : List Char) : Option (List Char) :=
  match fillerWordWs w1 g with
  | some r => fillerWordWs w2 r
  | none => none

/-- The `(you\s+)?to\s+` tail: if "you " matches it is consumed (a failing
"to" afterwards fails the whole pattern, since "to" cannot match at the
letter y where the optional group started). -/
def fillerToTail (g : List Char) : Option (List Char) :=
  fillerWordWs "to".data
    (match fillerWordWs "you".data g with
     | some r => r
     | none => g)

def fillerIWantTo (g : List Char) : Option (List Char) :=
  match fillerTwoWords "i".data "want".data g with
  | some r => fillerToTail r
  | none => none

def fillerPlease (g : List Char) : Option (List Char) :=
  fillerWordWs "please".data g

def fillerCanYou (g : List Char) : Option (List Char) :=
  fillerTwoWords "can".data "you".data g

def fillerHelpMe (g : List Char) : Option (List Char) :=
  fillerTwoWords "help".data "me".data g

def fillerINeedTo (g : List Char) : Option (List Char) :=
  match fillerTwoWords "i".data "need".data g with
  | some r => fillerToTail r
  | none => none

/-- The five fillers as direct scanners, in source order. -/
def FILLER_DROPS : List (List Char → Option (List Char)) :=
  [fillerIWantTo, fillerPlease, fillerCanYou, fillerHelpMe, fillerINeedTo]

/-- One `replace(..., '')` step: strip the filler if it matches. -/
def applyFillerDrop (g : List Char) (f : List Char → Option (List Char)) :
    List Char :=
  (f g).getD g

/-- The goal extraction with the five fillers stripped sequentially (each at
most once, in order), as the source does. -/
def specSequentialGoal (text : List Char) : List Char :=
  let sentences := ((splitSentences text).map trimL).filter (fun x => !x.isEmpty)
  match sentences with
  | g :: _ => capitalizeFirst (FILLER_DROPS.foldl applyFillerDrop g)
  | [] => trimL text

/-- Removal of only the first matching filler of the ordered list. -/
def claimFirstFiller : List (List Char → Option (List Char)) → List Char →
    List Char
  | [], g => g
  | f :: fs, g =>
    match f g with
    | some r => r
    | none => claimFirstFiller fs g

/-- The goal extraction as the claim words it: at most one leading filler —
the first matching one of the ordered list — is removed. -/
def claimC5Goal (text : List Char) : List Char :=
  let sentences := ((splitSentences text).map trimL).filter (fun x => !x.isEmpty)
  match sentences with
  | g :: _ => capitalizeFirst (claimFirstFiller FILLER_DROPS g)
  | [] => trimL text

/-! ### The engine agrees with the direct scanners -/

/-- End position of `word` + `\s+` at `p` (position-level direct scan). -/
def wordWsEnd (s : List Char) (w : List Char) (p : Nat) : Option Nat :=
  match litAt s w p with
  | some e =>
    if runLen isJsWs (s.drop e) = 0 then none
    else some (e + runLen isJsWs (s.drop e))
  | none => none

theorem seq_lit_ws_fail {s : List Char} {c0 : Char} {wt : List Char} {r3 : RE}
    {q : Nat} {d : Char} (hd : nthc s q = some d) (hws : isJsWs d = true)
    (hc0 : isJsWs (jsLower c0) = false) :
    reMatch s (.seq (.lit (c0 :: wt)) r3) q = [] := by
  rw [seq_lit_eq, litAt_fail_head hd (ws_lower_ne (jsLower c0) hws hc0)]

theorem seq_word_ws_cont {s : List Char} (w : List Char) (r3 : RE)
    (hr3 : ∀ q d, nthc s q = some d → isJsWs d = true → reMatch s r3 q = [])
    (p : Nat) :
    reMatch s (.seq (.lit w) (.seq (.plusG isJsWs) r3)) p =
      match wordWsEnd s w p with
      | some q => reMatch s r3 q
      | none => [] := by
  cases he : litAt s w p with
  | none =>
    have h1 : reMatch s (.seq (.lit w) (.seq (.plusG isJsWs) r3)) p = [] := by
      rw [seq_lit_eq, he]
    have h2 : wordWsEnd s w p = none := by rw [wordWsEnd, he]
    rw [h1, h2]
  | some e =>
    have h1 : reMatch s (.seq (.lit w) (.seq (.plusG isJsWs) r3)) p
        = reMatch s (.seq (.plusG isJsWs) r3) e := by
      rw [seq_lit_eq, he]
    rw [h1]
    by_cases hk : runLen isJsWs (s.drop e) = 0
    · have h2 : wordWsEnd s w p = none := by
        rw [wordWsEnd, he]
        simp [hk]
      rw [h2, seq_plusG_zero hk]
    · have h2 : wordWsEnd s w p = some (e + runLen isJsWs (s.drop e)) := by
        rw [wordWsEnd, he]
        simp [hk]
      rw [h2, seq_plusG_eq rfl (Nat.pos_of_ne_zero hk)]
      intro j hj1 hjk
      obtain ⟨d, hd, hws⟩ := run_char_at hjk
      exact hr3 (e + j) d hd hws

theorem seq_word_ws_end {s : List Char} (w : List Char) (p : Nat) :
    ((reMatch s (.seq (.lit w) (.plusG isJsWs)) p).head?).map Prod.fst
      = wordWsEnd s w p := by
  cases he : litAt s w p with
  | none =>
    have h1 : reMatch s (.seq (.lit w) (.plusG isJsWs)) p = [] := by
      rw [seq_lit_eq, he]
    have h2 : wordWsEnd s w p = none := by rw [wordWsEnd, he]
    rw [h1, h2]
    rfl
  | some e =>
    have h1 : reMatch s (.seq (.lit w) (.plusG isJsWs)) p
        = reMatch s (.plusG isJsWs) e := by
      rw [seq_lit_eq, he]
    rw [h1]
    by_cases hk : runLen isJsWs (s.drop e) = 0
    · have h2 : wordWsEnd s w p = none := by
        rw [wordWsEnd, he]
        simp [hk]
      rw [h2, plusG_head, if_pos hk]
      rfl
    · have h2 : wordWsEnd s w p = some (e + runLen isJsWs (s.drop e)) := by
        rw [wordWsEnd, he]
        simp [hk]
      rw [h2, plusG_head, if_neg hk]
      rfl

theorem wordWsEnd_bridge {s : List Char} (w : List Char) (p : Nat) :
    fillerWordWs w (s.drop p) = (wordWsEnd s w p).map (fun q => s.drop q) := by
  obtain ⟨hb1, hb2⟩ := litAt_bridge (s := s) w p
  cases hl : dropLitCI w (s.drop p) with
  | none =>
    have he : litAt s w p = none := by rw [hb1, hl]; rfl
    rw [fillerWordWs, hl, wordWsEnd, he]
    rfl
  | some r =>
    have he : litAt s w p = some (p + w.length) := by rw [hb1, hl]; rfl
    have hr : r = s.drop (p + w.length) := by
      have h2 := hb2 (by rw [hl]; rfl)
      rw [hl] at h2
      injection h2
    rw [fillerWordWs, hl, hr, wordWsEnd, he]
    show dropWsRun (s.drop (p + w.length)) =
      Option.map (fun q => s.drop q)
        (if runLen isJsWs (s.drop (p + w.length)) = 0 then none
         else some (p + w.length + runLen isJsWs (s.drop (p + w.length))))
    rw [dropWsRun_bridge]
    by_cases hk : runLen isJsWs (s.drop (p + w.length)) = 0
    · rw [if_pos hk, if_pos hk]
      rfl
    · rw [if_neg hk, if_neg hk]
      simp only [Option.map_some', Option.some.injEq]
      rw [List.drop_drop]

theorem stripRe_eq_headEnd (re : RE) (g : List Char) :
    stripRe re g =
      match ((reMatch g re 0).head?).map Prod.fst with
      | some e => g.drop e
      | none => g := by
  rw [stripRe]
  cases h : (reMatch g re 0).head? with
  | none => rfl
  | some b => cases b; rfl

theorem headEnd_group {s : List Char} (r : RE) (p : Nat) :
    ((reMatch s (.group r) p).head?).map Prod.fst
      = ((reMatch s r p).head?).map Prod.fst := by
  show ((((reMatch s r p).map _).head?).map Prod.fst) = _
  rw [List.head?_map]
  cases (reMatch s r p).head? with
  | none => rfl
  | some b => cases b; rfl

theorem headEnd_map_merge (l : List (Nat × Cap)) (c : Cap) :
    (((l.map (fun b => (b.1, mergeCap c b.2))).head?).map Prod.fst)
      = ((l.head?).map Prod.fst) := by
  rw [List.head?_map]
  cases l.head? with
  | none => rfl
  | some b => cases b; rfl

/-! ### The `(you\s+)?to\s+` tail of the first and fifth fillers -/

def youRE : RE := .seq (.lit "you".data) (.plusG isJsWs)

def toWsRE : RE := .seq (.lit "to".data) (.plusG isJsWs)

def optYouToRE : RE := .seq (.opt (.group youRE)) toWsRE

theorem optYouTo_eq (s : List Char) (p : Nat) :
    reMatch s optYouToRE p =
      catMap (fun a => (reMatch s toWsRE a.1).map
          (fun b => (b.1, mergeCap a.2 b.2)))
        ((reMatch s youRE p).map (fun b => (b.1, some (p, b.1))) ++ [(p, none)]) :=
  rfl

theorem toWs_fail_at_you {s : List Char} {p : Nat} {d : Char}
    (hd : nthc s p = some d) (hy : (jsLower d == jsLower 'y') = true) :
    reMatch s toWsRE p = [] := by
  have hne : (jsLower d == jsLower 't') = false := by
    rw [beq_iff_eq] at hy
    rw [hy]
    decide
  show reMatch s (.seq (.lit ('t' :: ['o'])) (.plusG isJsWs)) p = []
  rw [seq_lit_eq, litAt_fail_head hd hne]

theorem optYouTo_ws_fail {s : List Char} {q : Nat} {d : Char}
    (hd : nthc s q = some d) (hws : isJsWs d = true) :
    reMatch s optYouToRE q = [] := by
  have hyou : reMatch s youRE q = [] := by
    show reMatch s (.seq (.lit ('y' :: ['o', 'u'])) (.plusG isJsWs)) q = []
    exact seq_lit_ws_fail hd hws (by decide)
  have hto : reMatch s toWsRE q = [] := by
    show reMatch s (.seq (.lit ('t' :: ['o'])) (.plusG isJsWs)) q = []
    exact seq_lit_ws_fail hd hws (by decide)
  rw [optYouTo_eq, hyou]
  show catMap _ ([] ++ [(q, none)]) = []
  rw [List.nil_append, catMap_eq_of_tail_empty _ _ _ (by intro b hb; cases hb)]
  show (reMatch s toWsRE q).map _ = []
  rw [hto]
  rfl

theorem optYouTo_headEnd {s : List Char} (p : Nat) :
    ((reMatch s optYouToRE p).head?).map Prod.fst =
      match wordWsEnd s "you".data p with
      | some q => wordWsEnd s "to".data q
      | none => wordWsEnd s "to".data p := by
  have htoEnd : ∀ q, ((reMatch s toWsRE q).head?).map Prod.fst
      = wordWsEnd s "to".data q := fun q => seq_word_ws_end "to".data q
  cases he : litAt s "you".data p with
  | none =>
    have hY : reMatch s youRE p = [] := by
      rw [youRE, seq_lit_eq, he]
    have hW : wordWsEnd s "you".data p = none := by rw [wordWsEnd, he]
    rw [optYouTo_eq, hY, hW]
    show ((catMap _ ([] ++ [(p, none)])).head?).map Prod.fst = wordWsEnd s "to".data p
    rw [List.nil_append,
      catMap_eq_of_tail_empty _ _ _ (by intro b hb; cases hb)]
    show (((reMatch s toWsRE p).map
        (fun b => (b.1, mergeCap none b.2))).head?).map Prod.fst = _
    rw [headEnd_map_merge]
    exact htoEnd p
  | some e =>
    by_cases hk : runLen isJsWs (s.drop e) = 0
    · have hY : reMatch s youRE p = [] := by
        rw [youRE, seq_lit_eq, he]
        show reMatch s (.plusG isJsWs) e = []
        rw [plusG_eq, hk]
        rfl
      have hW : wordWsEnd s "you".data p = none := by
        rw [wordWsEnd, he]
        simp [hk]
      rw [optYouTo_eq, hY, hW]
      show ((catMap _ ([] ++ [(p, none)])).head?).map Prod.fst
        = wordWsEnd s "to".data p
      rw [List.nil_append,
        catMap_eq_of_tail_empty _ _ _ (by intro b hb; cases hb)]
      show (((reMatch s toWsRE p).map
          (fun b => (b.1, mergeCap none b.2))).head?).map Prod.fst = _
      rw [headEnd_map_merge]
      exact htoEnd p
    · obtain ⟨m, hm⟩ : ∃ m, runLen isJsWs (s.drop e) = m + 1 :=
        ⟨runLen isJsWs (s.drop e) - 1, by omega⟩
      have hW : wordWsEnd s "you".data p = some (e + (m + 1)) := by
        rw [wordWsEnd, he]
        simp [hk, hm]
      have hY : reMatch s youRE p =
          (e + 1 + m, (none : Cap)) ::
            ((List.range m).map (fun i => (e + 1 + i, (none : Cap)))).reverse := by
        rw [youRE, seq_lit_eq, he]
        show reMatch s (.plusG isJsWs) e = _
        rw [plusG_eq, hm, revRange_succ]
      obtain ⟨dp, hdp, hdy⟩ := litAt_head_char (show litAt s ('y' :: ['o', 'u']) p
        = some e from he)
      rw [optYouTo_eq, hY, hW]
      show ((catMap _ (((e + 1 + m, some (p, e + 1 + m)) ::
          (((List.range m).map (fun i => (e + 1 + i, (none : Cap)))).reverse).map
            (fun b => (b.1, some (p, b.1)))) ++ [(p, none)])).head?).map Prod.fst
        = wordWsEnd s "to".data (e + (m + 1))
      rw [show ((e + 1 + m, (some (p, e + 1 + m) : Cap)) ::
          (((List.range m).map (fun i => (e + 1 + i, (none : Cap)))).reverse).map
            (fun b => (b.1, some (p, b.1)))) ++ [(p, none)]
        = (e + 1 + m, (some (p, e + 1 + m) : Cap)) ::
          ((((List.range m).map (fun i => (e + 1 + i, (none : Cap)))).reverse).map
            (fun b => (b.1, some (p, b.1))) ++ [(p, none)]) from rfl]
      rw [catMap_eq_of_tail_empty]
      · show (((reMatch s toWsRE (e + 1 + m)).map
            (fun b => (b.1, mergeCap (some (p, e + 1 + m)) b.2))).head?).map
              Prod.fst = _
        rw [headEnd_map_merge, htoEnd]
        rw [show e + 1 + m = e + (m + 1) by omega]
      · intro b hb
        rcases List.mem_append.1 hb with hb1 | hb1
        · rcases List.mem_map.1 hb1 with ⟨x, hx, rfl⟩
          rw [List.mem_reverse] at hx
          rcases List.mem_map.1 hx with ⟨i, hi, rfl⟩
          rw [List.mem_range] at hi
          obtain ⟨dj, hdj, hdjws⟩ := run_char_at
            (show i + 1 < runLen isJsWs (s.drop e) by omega)
          have : reMatch s toWsRE (e + (i + 1)) = [] := by
            show reMatch s (.seq (.lit ('t' :: ['o'])) (.plusG isJsWs))
              (e + (i + 1)) = []
            exact seq_lit_ws_fail hdj hdjws (by decide)
          show (reMatch s toWsRE (e + 1 + i)).map _ = []
          rw [show e + 1 + i = e + (i + 1) by omega, this]
          rfl
        · rcases List.mem_singleton.1 hb1 with rfl
          show (reMatch s toWsRE p).map _ = []
          rw [toWs_fail_at_you hdp hdy]
          rfl

/-! ### Per-filler equivalence of `replace` and direct scanning -/

def fillerRE1 : RE :=
  .group (.seq (.lit "i".data) (.seq (.plusG isJsWs) (.seq (.lit "want".data)
    (.seq (.plusG isJsWs) optYouToRE))))

def fillerRE2 : RE := .group (.seq (.lit "please".data) (.plusG isJsWs))

def fillerRE3 : RE :=
  .group (.seq (.lit "can".data) (.seq (.plusG isJsWs) youRE))

def fillerRE4 : RE :=
  .group (.seq (.lit "help".data) (.seq (.plusG isJsWs)
    (.seq (.lit "me".data) (.plusG isJsWs))))

def fillerRE5 : RE :=
  .group (.seq (.lit "i".data) (.seq (.plusG isJsWs) (.seq (.lit "need".data)
    (.seq (.plusG isJsWs) optYouToRE))))

theorem stripRe_wordWs (w : List Char) (g : List Char) :
    stripRe (.group (.seq (.lit w) (.plusG isJsWs))) g
      = (fillerWordWs w g).getD g := by
  rw [stripRe_eq_headEnd, headEnd_group, seq_word_ws_end]
  have hb := wordWsEnd_bridge (s := g) w 0
  rw [List.drop_zero] at hb
  rw [hb]
  cases wordWsEnd g w 0 with
  | none => rfl
  | some q => rfl

theorem stripRe_twoWords (w1 : List Char) (c2 : Char) (w2t : List Char)
    (hc2 : isJsWs (jsLower c2) = false) (g : List Char) :
    stripRe (.group (.seq (.lit w1) (.seq (.plusG isJsWs)
        (.seq (.lit (c2 :: w2t)) (.plusG isJsWs))))) g
      = (fillerTwoWords w1 (c2 :: w2t) g).getD g := by
  rw [stripRe_eq_headEnd, headEnd_group]
  rw [seq_word_ws_cont w1 (.seq (.lit (c2 :: w2t)) (.plusG isJsWs))
    (fun q d hd hws => seq_lit_ws_fail hd hws hc2) 0]
  rw [fillerTwoWords]
  have hb1 := wordWsEnd_bridge (s := g) w1 0
  rw [List.drop_zero] at hb1
  rw [hb1]
  cases hq : wordWsEnd g w1 0 with
  | none => rfl
  | some q =>
    show (match ((reMatch g (.seq (.lit (c2 :: w2t)) (.plusG isJsWs)) q).head?).map
        Prod.fst with
      | some e => g.drop e
      | none => g) = (fillerWordWs (c2 :: w2t) (g.drop q)).getD g
    rw [seq_word_ws_end, wordWsEnd_bridge (s := g) (c2 :: w2t) q]
    cases wordWsEnd g (c2 :: w2t) q with
    | none => rfl
    | some q2 => rfl

theorem stripRe_leadTo (c2 : Char) (w2t : List Char)
    (hc2 : isJsWs (jsLower c2) = false) (g : List Char) :
    stripRe (.group (.seq (.lit "i".data) (.seq (.plusG isJsWs)
        (.seq (.lit (c2 :: w2t)) (.seq (.plusG isJsWs) optYouToRE))))) g
      = (match fillerTwoWords "i".data (c2 :: w2t) g with
         | some r => fillerToTail r
         | none => none).getD g := by
  rw [stripRe_eq_headEnd, headEnd_group]
  have hr3 : ∀ q d, nthc g q = some d → isJsWs d = true →
      reMatch g (.seq (.lit (c2 :: w2t)) (.seq (.plusG isJsWs) optYouToRE)) q
        = [] :=
    fun q d hd hws => seq_lit_ws_fail hd hws hc2
  rw [seq_word_ws_cont "i".data _ hr3 0]
  rw [fillerTwoWords]
  have hb1 := wordWsEnd_bridge (s := g) "i".data 0
  rw [List.drop_zero] at hb1
  rw [hb1]
  cases hq1 : wordWsEnd g "i".data 0 with
  | none => rfl
  | some q1 =>
    show (match ((reMatch g (.seq (.lit (c2 :: w2t))
          (.seq (.plusG isJsWs) optYouToRE)) q1).head?).map Prod.fst with
      | some e => g.drop e
      | none => g)
      = (match fillerWordWs (c2 :: w2t) (g.drop q1) with
         | some r => fillerToTail r
         | none => none).getD g
    rw [seq_word_ws_cont (c2 :: w2t) optYouToRE
      (fun q d hd hws => optYouTo_ws_fail hd hws) q1]
    rw [wordWsEnd_bridge (s := g) (c2 :: w2t) q1]
    cases hq2 : wordWsEnd g (c2 :: w2t) q1 with
    | none => rfl
    | some q2 =>
      show (match ((reMatch g optYouToRE q2).head?).map Prod.fst with
        | some e => g.drop e
        | none => g) = (fillerToTail (g.drop q2)).getD g
      rw [optYouTo_headEnd]
      rw [fillerToTail, wordWsEnd_bridge (s := g) "you".data q2]
      cases hq3 : wordWsEnd g "you".data q2 with
      | none =>
        show (match wordWsEnd g "to".data q2 with
          | some e => g.drop e
          | none => g) = (fillerWordWs "to".data (g.drop q2)).getD g
        rw [wordWsEnd_bridge (s := g) "to".data q2]
        cases wordWsEnd g "to".data q2 with
        | none => rfl
        | some q4 => rfl
      | some q3 =>
        show (match wordWsEnd g "to".data q3 with
          | some e => g.drop e
          | none => g) = (fillerWordWs "to".data (g.drop q3)).getD g
        rw [wordWsEnd_bridge (s := g) "to".data q3]
        cases wordWsEnd g "to".data q3 with
        | none => rfl
        | some q4 => rfl

theorem stripRe_fillerRE1 (g : List Char) :
    stripRe fillerRE1 g = (fillerIWantTo g).getD g :=
  stripRe_leadTo 'w' ['a', 'n', 't'] (by decide) g

theorem stripRe_fillerRE2 (g : List Char) :
    stripRe fillerRE2 g = (fillerPlease g).getD g :=
  stripRe_wordWs "please".data g

theorem stripRe_fillerRE3 (g : List Char) :
    stripRe fillerRE3 g = (fillerCanYou g).getD g :=
  stripRe_twoWords "can".data 'y' ['o', 'u'] (by decide) g

theorem stripRe_fillerRE4 (g : List Char) :
    stripRe fillerRE4 g = (fillerHelpMe g).getD g :=
  stripRe_twoWords "help".data 'm' ['e'] (by decide) g

theorem stripRe_fillerRE5 (g : List Char) :
    stripRe fillerRE5 g = (fillerINeedTo g).getD g :=
  stripRe_leadTo 'n' ['e', 'e', 'd'] (by decide) g

/-! ## C5 — filler phrases are stripped sequentially, not just the first -/

/-- C5 counterexample: on "please can you write a poem" the source strips
both "please " and "can you " (its five anchored `replace` calls run in
sequence), producing "Write a poem"; the claim — remove only the first
matching filler of the ordered list — predicts "Can you write a poem". -/
theorem C5_counterexample :
    String.mk (extractPrimaryGoal "please can you write a poem".data)
      = "Write a poem" ∧
    String.mk (claimC5Goal "please can you write a poem".data)
      = "Can you write a poem" ∧
    ("Write a poem" : String) ≠ "Can you write a poem" :=
  ⟨by decide, by decide, by decide⟩

/-- C5 amended: primaryGoal takes the first sentence (split on `.`, `!`,
`?`), applies the five filler patterns sequentially in the order
"i want (you )?to", "please", "can you", "help me", "i need (you )?to" —
each stripped at most once, so stacked fillers are all removed when they
appear in that order — and capitalizes the first letter.  The regex-driven
source extraction agrees with this direct scanning on every input. -/
theorem C5_amended_sequential_strip (text : List Char) :
    extractPrimaryGoal text = specSequentialGoal text := by
  simp only [extractPrimaryGoal, specSequentialGoal]
  cases h : ((splitSentences text).map trimL).filter (fun x => !x.isEmpty) with
  | nil => rfl
  | cons g t =>
    have hlist : GOAL_FILLER_PATTERNS
        = [fillerRE1, fillerRE2, fillerRE3, fillerRE4, fillerRE5] := rfl
    rw [hlist]
    simp only [List.foldl, FILLER_DROPS, applyFillerDrop]
    rw [stripRe_fillerRE1, stripRe_fillerRE2, stripRe_fillerRE3,
      stripRe_fillerRE4, stripRe_fillerRE5]

/-! ## C4 — clause boundaries of the constraint patterns -/

/-- C4 counterexample: a comma DOES cut the clause short ("fast", not
"fast, not slow"), and '!' does NOT terminate it ("big! now", not "big") —
the constraint regexes end the capture at `.`, `,` or end of string, not at
sentence punctuation `.`, `!`, `?`. -/
theorem C4_counterexample :
    ((normalize "It must be fast, not slow").map (fun r =>
        r.intent.constraints.hard.map (fun c => c.text)) = some ["fast"]) ∧
    ((normalize "must be big! now.").map (fun r =>
        r.intent.constraints.hard.map (fun c => c.text)) = some ["big! now"]) :=
  ⟨by decide, by decide⟩

theorem head?_mem {l : List α} {x : α} (h : l.head? = some x) : x ∈ l := by
  cases l with
  | nil => cases h
  | cons a t =>
    rw [List.head?_cons, Option.some.injEq] at h
    rw [h]
    exact List.mem_cons_self x t

theorem mem_catMap {f : α → List β} {b : β} :
    ∀ {l : List α}, b ∈ catMap f l ↔ ∃ a ∈ l, b ∈ f a := by
  intro l
  induction l with
  | nil => simp [catMap_nil]
  | cons a t ih =>
    rw [catMap_cons, List.mem_append, ih]
    constructor
    · rintro (h | ⟨c, hc, hb⟩)
      · exact ⟨a, List.mem_cons_self a t, h⟩
      · exact ⟨c, List.mem_cons_of_mem a hc, hb⟩
    · rintro ⟨c, hc, hb⟩
      rcases List.mem_cons.1 hc with rfl | hc
      · exact Or.inl hb
      · exact Or.inr ⟨c, hc, hb⟩

theorem catMap_eq_nil_iff {f : α → List β} :
    ∀ {l : List α}, catMap f l = [] ↔ ∀ a ∈ l, f a = [] := by
  intro l
  induction l with
  | nil => simp [catMap_nil]
  | cons a t ih =>
    rw [catMap_cons, List.append_eq_nil, ih]
    constructor
    · rintro ⟨h1, h2⟩ c hc
      rcases List.mem_cons.1 hc with rfl | hc
      · exact h1
      · exact h2 c hc
    · intro h
      exact ⟨h a (List.mem_cons_self a t),
        fun c hc => h c (List.mem_cons_of_mem a hc)⟩

theorem head_catMap_exists {f : α → List β} {x : β} :
    ∀ {l : List α}, (catMap f l).head? = some x →
      ∃ a ∈ l, (f a).head? = some x := by
  intro l
  induction l with
  | nil => intro h; cases h
  | cons a t ih =>
    intro h
    rw [catMap_cons] at h
    cases hfa : f a with
    | nil =>
      rw [hfa, List.nil_append] at h
      obtain ⟨c, hc, hx⟩ := ih h
      exact ⟨c, List.mem_cons_of_mem a hc, hx⟩
    | cons y ys =>
      rw [hfa] at h
      rw [List.cons_append, List.head?_cons, Option.some.injEq] at h
      exact ⟨a, List.mem_cons_self a t, by rw [hfa, List.head?_cons, h]⟩

theorem head_catMap_range {f : Nat → List β} {x : β} :
    ∀ {k : Nat}, (catMap f (List.range k)).head? = some x →
      ∃ i0, i0 < k ∧ (∀ i, i < i0 → f i = []) ∧ (f i0).head? = some x := by
  intro k
  induction k with
  | zero => intro h; cases h
  | succ m ih =>
    intro h
    rw [List.range_succ, catMap_append] at h
    cases hl : catMap f (List.range m) with
    | nil =>
      rw [hl, List.nil_append] at h
      refine ⟨m, by omega, ?_, ?_⟩
      · intro i hi
        exact catMap_eq_nil_iff.1 hl i (List.mem_range.2 hi)
      · rw [catMap_cons, catMap_nil, List.append_nil] at h
        exact h
    | cons z zs =>
      rw [hl, List.cons_append, List.head?_cons] at h
      obtain ⟨i0, hi0, hbefore, hx⟩ := ih (by rw [hl, List.head?_cons]; exact h)
      exact ⟨i0, by omega, hbefore, hx⟩

theorem catMap_map (f : β → List γ) (g : α → β) :
    ∀ l : List α, catMap f (l.map g) = catMap (fun a => f (g a)) l := by
  intro l
  induction l with
  | nil => rfl
  | cons a t ih => rw [List.map_cons, catMap_cons, catMap_cons, ih]

/-- Whether an expression holds no capturing group. -/
def noGroup : RE → Bool
  | .lit _ => true
  | .litCS _ => true
  | .plusG _ => true
  | .plusL _ => true
  | .opt r => noGroup r
  | .alt r1 r2 => noGroup r1 && noGroup r2
  | .seq r1 r2 => noGroup r1 && noGroup r2
  | .wb => true
  | .eos => true
  | .group _ => false

theorem noGroup_caps {re : RE} (h : noGroup re = true) :
    ∀ {s : List Char} {p : Nat} b, b ∈ reMatch s re p → b.2 = none := by
  induction re with
  | lit cs =>
    intro s p b hb
    rw [reMatch] at hb
    cases hl : litAt s cs p with
    | some e => rw [hl] at hb; rcases List.mem_singleton.1 hb with rfl; rfl
    | none => rw [hl] at hb; cases hb
  | litCS cs =>
    intro s p b hb
    rw [reMatch] at hb
    cases hl : litAtCS s cs p with
    | some e => rw [hl] at hb; rcases List.mem_singleton.1 hb with rfl; rfl
    | none => rw [hl] at hb; cases hb
  | plusG cls =>
    intro s p b hb
    rw [reMatch, List.mem_reverse] at hb
    rcases List.mem_map.1 hb with ⟨i, -, rfl⟩
    rfl
  | plusL cls =>
    intro s p b hb
    rw [reMatch] at hb
    rcases List.mem_map.1 hb with ⟨i, -, rfl⟩
    rfl
  | opt r ih =>
    intro s p b hb
    rw [reMatch] at hb
    rcases List.mem_append.1 hb with hb1 | hb1
    · exact ih h b hb1
    · rcases List.mem_singleton.1 hb1 with rfl; rfl
  | alt r1 r2 ih1 ih2 =>
    rw [noGroup, Bool.and_eq_true] at h
    intro s p b hb
    rw [reMatch] at hb
    rcases List.mem_append.1 hb with hb1 | hb1
    · exact ih1 h.1 b hb1
    · exact ih2 h.2 b hb1
  | seq r1 r2 ih1 ih2 =>
    rw [noGroup, Bool.and_eq_true] at h
    intro s p b hb
    rw [reMatch] at hb
    rcases mem_catMap.1 hb with ⟨a, ha, hb2⟩
    rcases List.mem_map.1 hb2 with ⟨c, hc, rfl⟩
    show mergeCap a.2 c.2 = none
    rw [ih1 h.1 a ha, ih2 h.2 c hc]
    rfl
  | wb =>
    intro s p b hb
    rw [reMatch] at hb
    split at hb
    · rcases List.mem_singleton.1 hb with rfl; rfl
    · cases hb
  | eos =>
    intro s p b hb
    rw [reMatch] at hb
    split at hb
    · rcases List.mem_singleton.1 hb with rfl; rfl
    · cases hb
  | group r ih => cases h

theorem litAt_ge {s : List Char} :
    ∀ {cs : List Char} {p e : Nat}, litAt s cs p = some e → p ≤ e := by
  intro cs
  induction cs with
  | nil =>
    intro p e h
    rw [litAt, Option.some.injEq] at h
    omega
  | cons c ct ih =>
    intro p e h
    rw [litAt] at h
    cases hd : nthc s p with
    | none => rw [hd] at h; cases h
    | some d =>
      rw [hd] at h
      by_cases hcmp : (jsLower d == jsLower c) = true
      · simp only [hcmp, if_true] at h
        have := ih h
        omega
      · rw [Bool.not_eq_true] at hcmp
        simp [hcmp] at h

theorem litAtCS_ge {s : List Char} :
    ∀ {cs : List Char} {p e : Nat}, litAtCS s cs p = some e → p ≤ e := by
  intro cs
  induction cs with
  | nil =>
    intro p e h
    rw [litAtCS, Option.some.injEq] at h
    omega
  | cons c ct ih =>
    intro p e h
    rw [litAtCS] at h
    cases hd : nthc s p with
    | none => rw [hd] at h; cases h
    | some d =>
      rw [hd] at h
      by_cases hcmp : (d == c) = true
      · simp only [hcmp, if_true] at h
        have := ih h
        omega
      · rw [Bool.not_eq_true] at hcmp
        simp [hcmp] at h

theorem reMatch_ge {re : RE} :
    ∀ {s : List Char} {p : Nat} b, b ∈ reMatch s re p → p ≤ b.1 := by
  induction re with
  | lit cs =>
    intro s p b hb
    rw [reMatch] at hb
    cases hl : litAt s cs p with
    | some e =>
      rw [hl] at hb
      rcases List.mem_singleton.1 hb with rfl
      exact litAt_ge hl
    | none => rw [hl] at hb; cases hb
  | litCS cs =>
    intro s p b hb
    rw [reMatch] at hb
    cases hl : litAtCS s cs p with
    | some e =>
      rw [hl] at hb
      rcases List.mem_singleton.1 hb with rfl
      exact litAtCS_ge hl
    | none => rw [hl] at hb; cases hb
  | plusG cls =>
    intro s p b hb
    rw [reMatch, List.mem_reverse] at hb
    rcases List.mem_map.1 hb with ⟨i, -, rfl⟩
    show p ≤ p + 1 + i
    omega
  | plusL cls =>
    intro s p b hb
    rw [reMatch] at hb
    rcases List.mem_map.1 hb with ⟨i, -, rfl⟩
    show p ≤ p + 1 + i
    omega
  | opt r ih =>
    intro s p b hb
    rw [reMatch] at hb
    rcases List.mem_append.1 hb with hb1 | hb1
    · exact ih b hb1
    · rcases List.mem_singleton.1 hb1 with rfl
      exact Nat.le_refl p
  | alt r1 r2 ih1 ih2 =>
    intro s p b hb
    rw [reMatch] at hb
    rcases List.mem_append.1 hb with hb1 | hb1
    · exact ih1 b hb1
    · exact ih2 b hb1
  | seq r1 r2 ih1 ih2 =>
    intro s p b hb
    rw [reMatch] at hb
    rcases mem_catMap.1 hb with ⟨a, ha, hb2⟩
    rcases List.mem_map.1 hb2 with ⟨c, hc, rfl⟩
    exact Nat.le_trans (ih1 a ha) (ih2 c hc)
  | wb =>
    intro s p b hb
    rw [reMatch] at hb
    split at hb
    · rcases List.mem_singleton.1 hb with rfl
      exact Nat.le_refl p
    · cases hb
  | eos =>
    intro s p b hb
    rw [reMatch] at hb
    split at hb
    · rcases List.mem_singleton.1 hb with rfl
      exact Nat.le_refl p
    · cases hb
  | group r ih =>
    intro s p b hb
    rw [reMatch] at hb
    rcases List.mem_map.1 hb with ⟨c, hc, rfl⟩
    exact ih c hc

/-- The terminator `(?:\.|,|$)` shared by the constraint patterns. -/
def TERMRE : RE := .alt (.lit ['.']) (.alt (.lit [',']) .eos)

theorem clauseTail_def : clauseTail = .seq (.group (.plusL isDotChar)) TERMRE :=
  rfl

theorem nthc_some_lt {s : List Char} {r : Nat} {c : Char}
    (h : nthc s r = some c) : r < s.length := by
  rw [nthc_eq_get?] at h
  by_contra hge
  rw [List.getElem?_eq_none (by omega)] at h
  cases h

theorem term_nonempty {s : List Char} {r : Nat}
    (h : reMatch s TERMRE r ≠ []) :
    r = s.length ∨ nthc s r = some '.' ∨ nthc s r = some ',' := by
  by_contra hno
  push_neg at hno
  obtain ⟨hlen, hdot, hcomma⟩ := hno
  apply h
  have h1 : reMatch s (.lit ['.']) r = [] := by
    rw [reMatch]
    cases hl : litAt s ['.'] r with
    | none => rfl
    | some e =>
      obtain ⟨d, hd, hcmp⟩ := litAt_head_char hl
      rw [beq_iff_eq] at hcmp
      have : d = '.' := (jsLower_eq_dot d).1 (by rw [hcmp]; rfl)
      exact absurd (this ▸ hd) hdot
  have h2 : reMatch s (.lit [',']) r = [] := by
    rw [reMatch]
    cases hl : litAt s [','] r with
    | none => rfl
    | some e =>
      obtain ⟨d, hd, hcmp⟩ := litAt_head_char hl
      rw [beq_iff_eq] at hcmp
      have : d = ',' := (jsLower_eq_comma d).1 (by rw [hcmp]; rfl)
      exact absurd (this ▸ hd) hcomma
  have h3 : reMatch s .eos r = [] := by
    rw [reMatch]
    simp [hlen]
  show reMatch s (.lit ['.']) r ++ (reMatch s (.lit [',']) r ++ reMatch s .eos r)
    = []
  rw [h1, h2, h3]
  rfl

theorem term_empty_chars {s : List Char} {r : Nat}
    (h : reMatch s TERMRE r = []) :
    nthc s r ≠ some '.' ∧ nthc s r ≠ some ',' := by
  have hsplit : reMatch s (.lit ['.']) r = [] ∧
      reMatch s (.lit [',']) r = [] ∧ reMatch s .eos r = [] := by
    have h2 := h
    rw [show reMatch s TERMRE r = reMatch s (.lit ['.']) r
        ++ (reMatch s (.lit [',']) r ++ reMatch s .eos r) from rfl] at h2
    rw [List.append_eq_nil, List.append_eq_nil] at h2
    exact ⟨h2.1, h2.2.1, h2.2.2⟩
  constructor
  · intro hc
    have hl : litAt s ['.'] r = some (r + 1) := by
      rw [litAt, hc]
      rfl
    have := hsplit.1
    rw [reMatch, hl] at this
    cases this
  · intro hc
    have hl : litAt s [','] r = some (r + 1) := by
      rw [litAt, hc]
      rfl
    have := hsplit.2.1
    rw [reMatch, hl] at this
    cases this

/-- The shape of every constraint pattern: group-free parts sequenced in
front of the shared lazy-capture-plus-terminator tail. -/
inductive EndsTail : RE → Prop where
  | base : EndsTail clauseTail
  | step {r1 r2 : RE} : noGroup r1 = true → EndsTail r2 → EndsTail (.seq r1 r2)

theorem clauseTail_head_cap {s : List Char} {p : Nat} {x : Nat × Cap}
    (h : (reMatch s clauseTail p).head? = some x) :
    ∃ r, x.2 = some (p, r) ∧ p < r ∧ r ≤ s.length ∧
      (∀ i, p < i → i < r → nthc s i ≠ some '.' ∧ nthc s i ≠ some ',') ∧
      (r = s.length ∨ nthc s r = some '.' ∨ nthc s r = some ',') := by
  have hre : reMatch s clauseTail p
      = catMap (fun i => (reMatch s TERMRE (p + 1 + i)).map
          (fun b => (b.1, mergeCap (some (p, p + 1 + i)) b.2)))
        (List.range (runLen isDotChar (s.drop p))) := by
    rw [clauseTail_def]
    show catMap _ (reMatch s (.group (.plusL isDotChar)) p) = _
    rw [show reMatch s (.group (.plusL isDotChar)) p
        = ((List.range (runLen isDotChar (s.drop p))).map
            (fun i => (p + 1 + i, (none : Cap)))).map
          (fun b => (b.1, some (p, b.1))) from rfl]
    rw [List.map_map, catMap_map]
    rfl
  rw [hre] at h
  obtain ⟨i0, hi0, hbefore, hx⟩ := head_catMap_range h
  rw [List.head?_map] at hx
  obtain ⟨y, hy, hxy⟩ := Option.map_eq_some'.1 hx
  have hy2 : y.2 = none :=
    noGroup_caps (show noGroup TERMRE = true from rfl) y (head?_mem hy)
  have hterm_ne : reMatch s TERMRE (p + 1 + i0) ≠ [] := by
    intro hnil
    rw [hnil] at hy
    cases hy
  have hend := term_nonempty hterm_ne
  refine ⟨p + 1 + i0, ?_, by omega, ?_, ?_, hend⟩
  · rw [← hxy]
    show mergeCap (some (p, p + 1 + i0)) y.2 = some (p, p + 1 + i0)
    rw [hy2]
    rfl
  · rcases hend with hlen | hdot | hcomma
    · omega
    · have := nthc_some_lt hdot
      omega
    · have := nthc_some_lt hcomma
      omega
  · intro i hpi hir
    have hj : i - p - 1 < i0 := by omega
    have hnil := hbefore (i - p - 1) hj
    rw [List.map_eq_nil_iff] at hnil
    have := term_empty_chars (r := p + 1 + (i - p - 1)) hnil
    rw [show p + 1 + (i - p - 1) = i by omega] at this
    exact this

theorem endsTail_head_cap {re : RE} (het : EndsTail re) :
    ∀ {s : List Char} {p : Nat} {x : Nat × Cap},
      (reMatch s re p).head? = some x →
      ∃ q r, x.2 = some (q, r) ∧ p ≤ q ∧ q < r ∧ r ≤ s.length ∧
        (∀ i, q < i → i < r → nthc s i ≠ some '.' ∧ nthc s i ≠ some ',') ∧
        (r = s.length ∨ nthc s r = some '.' ∨ nthc s r = some ',') := by
  induction het with
  | base =>
    intro s p x h
    obtain ⟨r, hx2, hpr, hrlen, hint, hend⟩ := clauseTail_head_cap h
    exact ⟨p, r, hx2, Nat.le_refl p, hpr, hrlen, hint, hend⟩
  | @step r1 r2 hng _ ih =>
    intro s p x h
    rw [show reMatch s (.seq r1 r2) p
        = catMap (fun a => (reMatch s r2 a.1).map
            (fun b => (b.1, mergeCap a.2 b.2))) (reMatch s r1 p) from rfl] at h
    obtain ⟨a, ha, hfa⟩ := head_catMap_exists h
    rw [List.head?_map] at hfa
    obtain ⟨y, hy, hxy⟩ := Option.map_eq_some'.1 hfa
    obtain ⟨q, r, hy2, haq, hqr, hrlen, hint, hend⟩ := ih hy
    refine ⟨q, r, ?_, ?_, hqr, hrlen, hint, hend⟩
    · rw [← hxy]
      show mergeCap a.2 y.2 = some (q, r)
      rw [noGroup_caps hng a ha, mergeCap_none, hy2]
    · exact Nat.le_trans (reMatch_ge a ha) haq

theorem scanFrom_spec {s : List Char} {re : RE} :
    ∀ {fuel li : Nat} {m : RMatch}, scanFrom s re fuel li = some m →
      li ≤ m.start ∧ (reMatch s re m.start).head? = some (m.stop, m.cap) := by
  intro fuel
  induction fuel with
  | zero => intro li m h; cases h
  | succ f ih =>
    intro li m h
    rw [scanFrom] at h
    cases hh : (reMatch s re li).head? with
    | some b =>
      rw [hh] at h
      cases b with
      | mk e cap =>
        have h2 : some (⟨li, e, cap⟩ : RMatch) = some m := h
        injection h2 with h2
        rw [← h2]
        exact ⟨Nat.le_refl li, hh⟩
    | none =>
      rw [hh] at h
      by_cases hlt : li < s.length
      · rw [if_pos hlt] at h
        obtain ⟨h1, h2⟩ := ih h
        exact ⟨by omega, h2⟩
      · rw [if_neg hlt] at h
        cases h

theorem execFrom_spec {s : List Char} {re : RE} {li : Nat} {m : RMatch}
    (h : execFrom s re li = some m) :
    li ≤ m.start ∧ (reMatch s re m.start).head? = some (m.stop, m.cap) :=
  scanFrom_spec h

theorem execLoop_spec {s : List Char} {re : RE} :
    ∀ (fuel li : Nat) (m : RMatch), m ∈ execLoop s re fuel li →
      li ≤ m.start ∧ m.start ≤ m.stop ∧
        (reMatch s re m.start).head? = some (m.stop, m.cap) := by
  intro fuel
  induction fuel with
  | zero => intro li m hm; cases hm
  | succ f ih =>
    intro li m hm
    rw [execLoop] at hm
    cases he : execFrom s re li with
    | none => rw [he] at hm; cases hm
    | some m0 =>
      rw [he] at hm
      obtain ⟨h1, h2⟩ := execFrom_spec he
      have hm0 : m0.start ≤ m0.stop := by
        have := reMatch_ge (m0.stop, m0.cap) (head?_mem h2)
        exact this
      rcases List.mem_cons.1 hm with rfl | hm
      · exact ⟨h1, hm0, h2⟩
      · obtain ⟨h3, h4, h5⟩ := ih m0.stop m hm
        exact ⟨by omega, h4, h5⟩

theorem execLoop_pairwise {s : List Char} {re : RE} :
    ∀ (fuel li : Nat),
      (execLoop s re fuel li).Pairwise (fun m1 m2 => m1.stop ≤ m2.start) := by
  intro fuel
  induction fuel with
  | zero => intro li; exact List.Pairwise.nil
  | succ f ih =>
    intro li
    rw [execLoop]
    cases he : execFrom s re li with
    | none => exact List.Pairwise.nil
    | some m0 =>
      refine List.Pairwise.cons ?_ (ih m0.stop)
      intro m hm
      exact (execLoop_spec f m0.stop m hm).1

theorem endsTail_all :
    ∀ pat ∈ HARD_CONSTRAINT_PATTERNS ++ SOFT_CONSTRAINT_PATTERNS,
      EndsTail pat.re := by
  intro pat hp
  simp only [HARD_CONSTRAINT_PATTERNS, SOFT_CONSTRAINT_PATTERNS,
    List.mem_append, List.mem_cons, List.not_mem_nil, or_false] at hp
  rcases hp with ((rfl | rfl | rfl | rfl | rfl | rfl | rfl) |
    (rfl | rfl | rfl | rfl | rfl | rfl)) <;>
    · repeat first
        | exact EndsTail.base
        | refine EndsTail.step rfl ?_

/-- C4 amended: for each hard or soft constraint pattern, every match of the
source's global exec loop captures a clause running from the end of the
trigger up to (exclusively) the next '.' or ',' after the clause's first
character, or to the end of the string — never stopping at any other
character such as '!' or '?' — and the matches are collected across the whole
input in order, without overlap. -/
theorem C4_amended_clause_boundaries (pat : CPattern)
    (hp : pat ∈ HARD_CONSTRAINT_PATTERNS ++ SOFT_CONSTRAINT_PATTERNS)
    (s : List Char) :
    (∀ m ∈ execAll s pat.re, ∃ q r, m.cap = some (q, r) ∧
        m.start ≤ q ∧ q < r ∧ r ≤ s.length ∧
        (∀ i, q < i → i < r → nthc s i ≠ some '.' ∧ nthc s i ≠ some ',') ∧
        (r = s.length ∨ nthc s r = some '.' ∨ nthc s r = some ',')) ∧
    (execAll s pat.re).Pairwise (fun m1 m2 => m1.stop ≤ m2.start) := by
  have het := endsTail_all pat hp
  constructor
  · intro m hm
    obtain ⟨-, -, hhead⟩ := execLoop_spec (s.length + 1) 0 m hm
    obtain ⟨q, r, hc, hq, hqr, hrlen, hint, hend⟩ := endsTail_head_cap het hhead
    exact ⟨q, r, hc, hq, hqr, hrlen, hint, hend⟩
  · exact execLoop_pairwise _ _

theorem C4_amended_clause_boundaries_witness :
    (∀ m ∈ execAll "It must be odd.".data
        (HARD_CONSTRAINT_PATTERNS.headD default).re, ∃ q r,
        m.cap = some (q, r) ∧
        m.start ≤ q ∧ q < r ∧ r ≤ "It must be odd.".data.length ∧
        (∀ i, q < i → i < r → nthc "It must be odd.".data i ≠ some '.' ∧
          nthc "It must be odd.".data i ≠ some ',') ∧
        (r = "It must be odd.".data.length ∨
          nthc "It must be odd.".data r = some '.' ∨
          nthc "It must be odd.".data r = some ',')) ∧
    (execAll "It must be odd.".data
        (HARD_CONSTRAINT_PATTERNS.headD default).re).Pairwise
      (fun m1 m2 => m1.stop ≤ m2.start) :=
  C4_amended_clause_boundaries (HARD_CONSTRAINT_PATTERNS.headD default)
    (List.mem_append_left _ (List.mem_cons_self _ _)) "It must be odd.".data

end CleanIntent
